import Mathlib

/-!
Shallow embedding of the frame-graph layer of the `goldfish` renderer
(`src/crates/goldfish/src/engine/renderer/render_graph.rs`), together with
proofs about its dependency resolution, caching, allocation, barrier
emission and replay behaviour.

Conventions of the embedding:
* `usize` indices and raw Vulkan object handles (`ash::vk::ShaderModule`,
  `ash::vk::Buffer`, ...) are modelled as `Nat`.
* Vulkan `PipelineStageFlags` / `AccessFlags` bitmasks are modelled as `Nat`
  bitmasks with the numeric values of the corresponding `ash::vk` constants.
* `HashMap` fields are modelled as association lists, `HashSet` fields as
  duplicate-free lists with insert-if-absent semantics; iteration order of a
  Rust hash container is unspecified, the lists fix one order.
* Physical GPU objects (`Texture`, `GpuBuffer`, ...) are opaque to the graph:
  the caches track the backing `Vec` of such objects by its length, and pool
  entries are indices into that `Vec`, exactly as in the source.
* Functions that can `panic!` / `unreachable!` / `unimplemented!` in Rust are
  embedded as `Except`/`Option`-valued functions.
-/

namespace Goldfish

/-! ### Association-list and list-set helpers

These model `HashMap` (`alookup`, `alistSet`) and `HashSet` (`hsInsert`,
`dedupFirst`) operations used throughout `render_graph.rs`. -/

/-- Lookup in an association list (models `HashMap::get`). -/
def alookup {κ β : Type _} [DecidableEq κ] : List (κ × β) → κ → Option β
  | [], _ => none
  | (k', v) :: t, k => if k' = k then some v else alookup t k

/-- Insert-or-replace in an association list (models writing through
`HashMap::entry`). -/
def alistSet {κ β : Type _} [DecidableEq κ] : List (κ × β) → κ → β → List (κ × β)
  | [], k, v => [(k, v)]
  | (k', v') :: t, k, v => if k' = k then (k, v) :: t else (k', v') :: alistSet t k v

/-- Insert into a list-set (models `HashSet::insert`). -/
def hsInsert {α : Type _} [DecidableEq α] (s : List α) (a : α) : List α :=
  if a ∈ s then s else s ++ [a]

/-- Collect a list into a set, keeping first occurrences (models collecting an
iterator into a `HashSet` and iterating it). -/
def dedupFirst {α : Type _} [DecidableEq α] (l : List α) : List α :=
  l.foldl hsInsert []

theorem alookup_alistSet_self {κ β : Type _} [DecidableEq κ]
    (m : List (κ × β)) (k : κ) (v : β) : alookup (alistSet m k v) k = some v := by
  induction m with
  | nil => simp [alistSet, alookup]
  | cons h t ih =>
    obtain ⟨k', v'⟩ := h
    by_cases hk : k' = k
    · subst hk; simp [alistSet, alookup]
    · simp [alistSet, alookup, hk, ih]

theorem alookup_alistSet_ne {κ β : Type _} [DecidableEq κ]
    (m : List (κ × β)) (k k' : κ) (v : β) (h : k ≠ k') :
    alookup (alistSet m k v) k' = alookup m k' := by
  induction m with
  | nil => simp [alistSet, alookup, h]
  | cons hd t ih =>
    obtain ⟨k₀, v₀⟩ := hd
    by_cases hk : k₀ = k
    · subst hk; simp [alistSet, alookup, h]
    · simp [alistSet, alookup, hk, ih]

theorem alookup_append {κ β : Type _} [DecidableEq κ]
    (m₁ m₂ : List (κ × β)) (k : κ) :
    alookup (m₁ ++ m₂) k = (alookup m₁ k).orElse (fun _ => alookup m₂ k) := by
  induction m₁ with
  | nil => simp [alookup]
  | cons h t ih =>
    obtain ⟨k', v⟩ := h
    by_cases hk : k' = k
    · simp [alookup, hk]
    · simp [alookup, hk, ih]

theorem mem_hsInsert {α : Type _} [DecidableEq α] (s : List α) (a x : α) :
    x ∈ hsInsert s a ↔ x ∈ s ∨ x = a := by
  unfold hsInsert
  by_cases h : a ∈ s
  · simp only [if_pos h]
    constructor
    · exact fun hx => Or.inl hx
    · rintro (hx | rfl) <;> [exact hx; exact h]
  · simp [if_neg h]

theorem mem_dedupFirst_aux {α : Type _} [DecidableEq α] (l : List α) :
    ∀ (acc : List α) (x : α), x ∈ l.foldl hsInsert acc ↔ x ∈ acc ∨ x ∈ l := by
  induction l with
  | nil => simp
  | cons a t ih =>
    intro acc x
    simp only [List.foldl_cons, ih, mem_hsInsert, List.mem_cons]
    tauto

theorem mem_dedupFirst {α : Type _} [DecidableEq α] (l : List α) (x : α) :
    x ∈ dedupFirst l ↔ x ∈ l := by
  unfold dedupFirst
  rw [mem_dedupFirst_aux]
  simp

/-! ### Vulkan flag constants and enums

Numeric values are those of the `ash::vk` constants used in
`render_graph.rs`. -/

namespace vk

def VERTEX_SHADER : Nat := 0x8
def FRAGMENT_SHADER : Nat := 0x80
def COMPUTE_SHADER : Nat := 0x800
def COLOR_ATTACHMENT_OUTPUT : Nat := 0x400
def LATE_FRAGMENT_TESTS : Nat := 0x200
def SHADER_READ : Nat := 0x20
def SHADER_WRITE : Nat := 0x40
def COLOR_ATTACHMENT_WRITE : Nat := 0x100
def DEPTH_STENCIL_ATTACHMENT_WRITE : Nat := 0x400
def emptyFlags : Nat := 0

end vk

/-- `ImageLayout` (variants as enumerated by the `From<ImageLayout>`
conversion in `backends/vulkan/render_pass.rs`). -/
inductive ImageLayout where
  | Undefined
  | General
  | ColorAttachmentOptimal
  | DepthStencilAttachmentOptimal
  | DepthStencilReadOnlyOptimal
  | ShaderReadOnlyOptimal
  | TransferSrcOptimal
  | TransferDstOptimal
  | Preinitialized
deriving DecidableEq

/-- `TextureFormat` from `renderer/mod.rs`. -/
inductive TextureFormat where
  | RGB8 | RGB16 | RGBA8 | RGBA16 | SRGB8 | SRGBA8
  | CubemapRGB8 | CubemapRGB16 | CubemapRGBA8 | CubemapRGBA16
  | CubemapSRGB8 | CubemapSRGBA8
  | Depth
deriving DecidableEq

/-- `LoadOp` from `renderer/mod.rs`. -/
inductive LoadOp where
  | Load | Clear | DontCare
deriving DecidableEq

/-- `StoreOp` from `renderer/mod.rs`. -/
inductive StoreOp where
  | Store | DontCare
deriving DecidableEq

/-- `gpu_allocator::MemoryLocation`. -/
inductive MemoryLocation where
  | Unknown | GpuOnly | CpuToGpu | GpuToCpu
deriving DecidableEq

/-- `TextureUsage` bitflags (u16) from `renderer/mod.rs`. -/
abbrev TextureUsage := Nat

/-- `BufferUsage` bitflags (u16) from `renderer/mod.rs`. -/
abbrev BufferUsage := Nat

/-- `AttachmentDescription` as constructed and hashed by
`GraphPhysicalResourceMap::alloc_render_passes`. -/
structure AttachmentDescription where
  format : TextureFormat
  usage : TextureUsage
  load_op : LoadOp
  store_op : StoreOp
  initial_layout : ImageLayout
  final_layout : ImageLayout
deriving DecidableEq

/-! ### Graph handles -/

/-- `GraphAttachmentHandle`: a read handle on an attachment, carrying the
full source/destination halves of the barrier it induces. -/
structure GraphAttachmentHandle where
  id : Nat
  src_stage : Nat
  dst_stage : Nat
  src_access : Nat
  dst_access : Nat
  initial_layout : ImageLayout
  final_layout : ImageLayout
deriving DecidableEq

/-- `MutableGraphAttachmentHandle`: a write handle, carrying the last
writer's layout/stage/access. -/
structure MutableGraphAttachmentHandle where
  id : Nat
  layout : ImageLayout
  stage : Nat
  access : Nat
deriving DecidableEq

/-- `MutableGraphAttachmentHandle::read`: downgrade a mutable handle to a
read handle; source half copied from the writer state, destination half the
fixed shader-read profile. -/
def MutableGraphAttachmentHandle.read (self : MutableGraphAttachmentHandle) :
    GraphAttachmentHandle :=
  { id := self.id
    src_stage := self.stage
    src_access := self.access
    initial_layout := self.layout
    dst_stage := vk.VERTEX_SHADER ||| vk.FRAGMENT_SHADER ||| vk.COMPUTE_SHADER
    dst_access := vk.SHADER_READ
    final_layout := ImageLayout.ShaderReadOnlyOptimal }

/-- `GraphBufferHandle`: a read handle on a graph-owned buffer. -/
structure GraphBufferHandle where
  id : Nat
  src_stage : Nat
  dst_stage : Nat
  src_access : Nat
  dst_access : Nat
deriving DecidableEq

/-- `MutableGraphBufferHandle`. -/
structure MutableGraphBufferHandle where
  id : Nat
  stage : Nat
  access : Nat
deriving DecidableEq

/-- `MutableGraphBufferHandle::read`. -/
def MutableGraphBufferHandle.read (self : MutableGraphBufferHandle) :
    GraphBufferHandle :=
  { id := self.id
    src_stage := self.stage
    src_access := self.access
    dst_stage := vk.VERTEX_SHADER ||| vk.FRAGMENT_SHADER ||| vk.COMPUTE_SHADER
    dst_access := vk.SHADER_READ }

/-- `GraphPipelineHandle`. -/
inductive GraphPipelineHandle where
  | Raster (id : Nat)
  | Compute (id : Nat)
deriving DecidableEq

/-! ### Recorded commands, imported and owned resources -/

/-- `PassCmd`. Clear values are opaque to the graph (it only stores and
forwards them), so they are modelled as opaque `Nat` tokens. -/
inductive PassCmd where
  | BeginRenderPass (render_pass : Nat) (clear_values : List Nat)
  | EndRenderPass
  | BindRasterPipeline (pipeline : Nat)
  | BindComputePipeline (pipeline : Nat)
  | BindDescriptor (set : Nat) (descriptor : Nat) (pipeline : GraphPipelineHandle)
  | DrawMesh (mesh : Nat)
  | Draw (vertex_count instance_count first_vertex first_instance : Nat)
deriving DecidableEq

/-- `GraphImportedResource`: caller-owned objects, identified by their raw
device handles (which is also how the Rust code hashes them). -/
inductive GraphImportedResource where
  | Shader (module : Nat)
  | Mesh (mesh : Nat)
  | Buffer (raw : Nat) (size : Nat)
  | Texture (image sampler image_view : Nat)
deriving DecidableEq

/-- `GraphOwnedResourceDescriptorBinding`. -/
inductive GraphOwnedResourceDescriptorBinding where
  | ImportedBuffer (handle : Nat)
  | ImportedTexture (handle : Nat)
  | Buffer (handle : GraphBufferHandle)
  | MutableBuffer (handle : MutableGraphBufferHandle)
  | Attachment (handle : GraphAttachmentHandle)
  | MutableAttachment (handle : MutableGraphAttachmentHandle)
deriving DecidableEq

/-- `GraphOwnedResource`. Pipeline fixed-function state and shader handles
are opaque `Nat`s; `&'static DescriptorSetInfo` references are identified by
a `Nat` id (the Rust code keys maps by their pointer identity). -/
inductive GraphOwnedResource where
  | RasterPipeline (name : String) (vs : Nat) (ps : Option Nat)
      (descriptor_layouts : List Nat) (render_pass : Nat)
      (depth_compare_op : Option Nat) (depth_write : Bool) (face_cull : Nat)
      (push_constant_bytes : Nat) (vertex_input_info : Nat) (polygon_mode : Nat)
  | ComputePipeline (name : String) (cs : Nat) (descriptor_layouts : List Nat)
  | RenderPass (name : String)
      (color_attachments : List MutableGraphAttachmentHandle)
      (depth_attachment : Option MutableGraphAttachmentHandle)
  | OutputRenderPass
  | Attachment (name : String) (width height : Nat) (format : TextureFormat)
      (usage : TextureUsage) (load_op : LoadOp) (store_op : StoreOp)
  | Buffer (name : String) (size : Nat) (usage : BufferUsage)
      (location : MemoryLocation)
  | DescriptorSet (name : String) (descriptor_layout : Nat)
      (bindings : List (Nat × GraphOwnedResourceDescriptorBinding))
deriving DecidableEq

/-- Is this resource the `OutputRenderPass` sentinel? -/
def GraphOwnedResource.isOutput : GraphOwnedResource → Bool
  | .OutputRenderPass => true
  | _ => false

/-- Is this resource a `DescriptorSet`? -/
def GraphOwnedResource.isDescriptorSet : GraphOwnedResource → Bool
  | .DescriptorSet _ _ _ => true
  | _ => false

/-- `RecordedPass`. The `HashSet` read/write sets are modelled as
duplicate-free lists maintained by `hsInsert`. -/
structure RecordedPass where
  name : String
  pass : Nat
  cmds : List PassCmd
  read_attachments : List GraphAttachmentHandle
  write_attachments : List MutableGraphAttachmentHandle
  read_buffers : List GraphBufferHandle
  write_buffers : List MutableGraphBufferHandle
deriving DecidableEq

/-- `RenderGraph` (without the injected cache, which is threaded
explicitly through the allocator functions below). -/
structure RenderGraph where
  passes : List RecordedPass
  owned_resources : List GraphOwnedResource
  resource_to_owning_pass : List (Nat × Nat)
  imported_resources : List GraphImportedResource
deriving DecidableEq

/-! ### Dependency resolver (`RenderGraph::resolve_pass_dependencies`) -/

/-- Look up the owning pass of each resource id in turn; `none` models the
panicking `HashMap` index on a resource with no recorded owner. -/
def lookupOwners (G : RenderGraph) : List Nat → Option (List Nat)
  | [] => some []
  | i :: is =>
    match alookup G.resource_to_owning_pass i with
    | none => none
    | some p => (lookupOwners G is).map (p :: ·)

/-- The deduplicated set of passes owning the resources a pass reads:
`read_attachments` owners chained with `read_buffers` owners, collected into
a `HashSet`. -/
def passReadOwners (G : RenderGraph) (rp : RecordedPass) : Option (List Nat) :=
  (lookupOwners G
    (rp.read_attachments.map (·.id) ++ rp.read_buffers.map (·.id))).map dedupFirst

/-- Resolve each dependency in turn with the given recursion fuel,
collecting the concatenated push lists (`none` as soon as one fails). -/
def mapResolve (f : Nat → Option (List Nat)) : List Nat → Option (List (List Nat))
  | [] => some []
  | d :: ds =>
    match f d with
    | none => none
    | some l =>
      match mapResolve f ds with
      | none => none
      | some ls => some (l :: ls)

/-- `RenderGraph::resolve_pass_dependencies`, with an explicit fuel
parameter: the Rust function recurses without an occurs-check and diverges
on cyclic graphs, which the embedding renders as `none` for every fuel.
The returned list is the sequence of `pass_order.push` calls performed by
the call (the pass itself, then the pushes of the recursive calls on each
of its read-owners, in order). -/
def resolvePassDependencies (G : RenderGraph) : Nat → Nat → Option (List Nat)
  | 0, _ => none
  | fuel + 1, p =>
    match G.passes.get? p with
    | none => none
    | some rp =>
      match passReadOwners G rp with
      | none => none
      | some deps =>
        match mapResolve (resolvePassDependencies G fuel) deps with
        | none => none
        | some ls => some (p :: ls.flatten)

/-- The consumer-to-producer dependency step: pass `u` reads a resource
whose owning pass is `v`. -/
def DependsOn (G : RenderGraph) (u v : Nat) : Prop :=
  ∃ rp l, G.passes.get? u = some rp ∧ passReadOwners G rp = some l ∧ v ∈ l

/-- Reachability along read-dependency edges from the root pass. -/
def Reaches (G : RenderGraph) (u v : Nat) : Prop :=
  Relation.ReflTransGen (DependsOn G) u v

/-! ### Replay events and the command replayer -/

/-- The synchronization / recording calls `execute` issues against the
`GraphicsContext`, keyed by virtual resource ids; barrier events carry the
stage/access/layout data passed to `pipeline_barrier`. -/
inductive Event where
  | imageBarrier (attachment_id : Nat) (src_stage dst_stage : Nat)
      (src_access dst_access : Nat) (old_layout new_layout : ImageLayout)
  | bufferBarrier (buffer_id : Nat) (src_stage dst_stage src_access dst_access : Nat)
  | beginRenderPass (render_pass_id : Nat) (clear_values : List Nat)
  | endRenderPass
  | bindRasterPipeline (id : Nat)
  | bindComputePipeline (id : Nat)
  | bindDescriptor (set : Nat) (descriptor : Nat)
  | drawMesh (id : Nat)
  | draw (vertex_count instance_count first_vertex first_instance : Nat)
deriving DecidableEq

/-- Is the event a `pipeline_barrier` call? -/
def Event.isBarrier : Event → Bool
  | .imageBarrier _ _ _ _ _ _ _ => true
  | .bufferBarrier _ _ _ _ _ => true
  | _ => false

/-- The `ImageMemoryBarrier` emitted for a read attachment handle. -/
def attachmentBarrier (a : GraphAttachmentHandle) : Event :=
  .imageBarrier a.id a.src_stage a.dst_stage a.src_access a.dst_access
    a.initial_layout a.final_layout

/-- The `BufferMemoryBarrier` emitted for a read buffer handle. -/
def readBufferBarrier (b : GraphBufferHandle) : Event :=
  .bufferBarrier b.id b.src_stage b.dst_stage b.src_access b.dst_access

/-- Replay of one recorded command of a pass, as in the command `match` of
`RenderGraph::execute`: a `BeginRenderPass` command is preceded by one image
barrier per read attachment and one buffer barrier per read buffer of the
pass.  Events carry virtual ids; the virtual-to-physical maps (modelled by
the allocator functions below) resolve them to physical objects without
changing the emitted sequence. -/
def replayCmd (rp : RecordedPass) : PassCmd → List Event
  | .BeginRenderPass id cv =>
    rp.read_attachments.map attachmentBarrier
      ++ rp.read_buffers.map readBufferBarrier
      ++ [.beginRenderPass id cv]
  | .EndRenderPass => [.endRenderPass]
  | .BindRasterPipeline p => [.bindRasterPipeline p]
  | .BindComputePipeline p => [.bindComputePipeline p]
  | .BindDescriptor s d _ => [.bindDescriptor s d]
  | .DrawMesh m => [.drawMesh m]
  | .Draw a b c d => [.draw a b c d]

/-- Replay of all commands of one pass, in order. -/
def replayPass (rp : RecordedPass) : List Event :=
  (rp.cmds.map (replayCmd rp)).flatten

/-! ### `RenderGraph::execute` -/

/-- The ids of `OutputRenderPass` resources in the graph. -/
def outputResources (G : RenderGraph) : List Nat :=
  (G.owned_resources.enum.filter (fun p => p.2.isOutput)).map (·.1)

/-- Fatal conditions of `execute`, which in the source are process-terminating
panics. -/
inductive ExecError where
  | outputCountPanic
  | resolvePanic
deriving DecidableEq

/-- `RenderGraph::execute`, returning the resolved execution order and the
replayed event trace.  Mirrors the source: panic if the number of
`OutputRenderPass` resources differs from one; the root pass is the owner of
the unique output resource; the DFS starts from `passes = vec![root]`; the
push list is reversed and deduplicated keeping first occurrences; then each
selected pass's commands are replayed in order.  `resolvePanic` covers the
panicking map indexing of the source (missing owner / out-of-range pass)
together with divergence on cyclic graphs (fuel exhaustion). -/
def execute (G : RenderGraph) (fuel : Nat) :
    Except ExecError (List Nat × List Event) :=
  if (outputResources G).length ≠ 1 then
    .error .outputCountPanic
  else
    match (outputResources G).head? with
    | none => .error .outputCountPanic
    | some id =>
      match alookup G.resource_to_owning_pass id with
      | none => .error .resolvePanic
      | some root =>
        match resolvePassDependencies G fuel root with
        | none => .error .resolvePanic
        | some pushes =>
          let sel := dedupFirst (root :: pushes).reverse
          .ok (sel, (sel.map (fun p =>
            match G.passes.get? p with
            | some rp => replayPass rp
            | none => [])).flatten)

/-! ### Physical resource caches (`RenderGraphCache`) -/

/-- `AttachmentCacheKey`. -/
structure AttachmentCacheKey where
  width : Nat
  height : Nat
  format : TextureFormat
  usage : TextureUsage
deriving DecidableEq

/-- `AttachmentCache`: the backing `Vec<Texture>` is tracked by its length
(`attachments`), pools are per-key lists of indices into it. -/
structure AttachmentCache where
  attachments : Nat
  cache : List (AttachmentCacheKey × List Nat)
deriving DecidableEq

/-- The pool of physical attachment indices for a key. -/
def AttachmentCache.pool (c : AttachmentCache) (k : AttachmentCacheKey) : List Nat :=
  (alookup c.cache k).getD []

/-- Iterated body of the `while attachments.len() < count` loop of
`RenderGraphCache::alloc_attachments`: each iteration pushes the index of a
freshly created texture (the current length of the backing `Vec`) onto the
pool. -/
def allocLoopGo (total : Nat) (pool : List Nat) : Nat → Nat × List Nat
  | 0 => (total, pool)
  | k + 1 => allocLoopGo (total + 1) (pool ++ [total]) k

/-- The `while attachments.len() < count` loop: it runs exactly
`count - pool.length` iterations. -/
def allocLoop (total : Nat) (pool : List Nat) (count : Nat) : Nat × List Nat :=
  allocLoopGo total pool (count - pool.length)

/-- `RenderGraphCache::alloc_attachments`. -/
def AttachmentCache.allocAttachments (c : AttachmentCache)
    (k : AttachmentCacheKey) (count : Nat) : AttachmentCache :=
  let r := allocLoop c.attachments (c.pool k) count
  { attachments := r.1, cache := alistSet c.cache k r.2 }

/-- `BufferCacheKey`. -/
structure BufferCacheKey where
  size : Nat
  usage : BufferUsage
  location : MemoryLocation
deriving DecidableEq

/-- `BufferCache`, analogous to `AttachmentCache`. -/
structure BufferCache where
  buffers : Nat
  cache : List (BufferCacheKey × List Nat)
deriving DecidableEq

/-- The pool of physical buffer indices for a key. -/
def BufferCache.pool (c : BufferCache) (k : BufferCacheKey) : List Nat :=
  (alookup c.cache k).getD []

/-- `RenderGraphCache::alloc_buffers`. -/
def BufferCache.allocBuffers (c : BufferCache)
    (k : BufferCacheKey) (count : Nat) : BufferCache :=
  let r := allocLoop c.buffers (c.pool k) count
  { buffers := r.1, cache := alistSet c.cache k r.2 }

/-- `RenderPassCacheKey`. -/
structure RenderPassCacheKey where
  color_attachment_descs : List AttachmentDescription
  depth_attachment_desc : Option AttachmentDescription
deriving DecidableEq

/-- `DescriptorHeapCacheKeyBinding`: the resolved identity of one descriptor
binding (raw device handles for imported resources, physical pool indices
for graph-owned ones). -/
inductive DescriptorHeapCacheKeyBinding where
  | ImportedBuffer (buffer : Nat)
  | ImportedTexture (image sampler image_view : Nat)
  | Buffer (buffer : Nat)
  | Attachment (attachment : Nat)
deriving DecidableEq

/-- `DescriptorHeapCacheKey`. -/
structure DescriptorHeapCacheKey where
  bindings : List (Nat × DescriptorHeapCacheKeyBinding)
deriving DecidableEq

/-- One per-layout `DescriptorHeapCache`.  `VulkanDescriptorHeap::alloc`
hands out distinct descriptor ids from a free list; it is modelled by the
fresh-id counter `next` (the source unwraps the `Option`, so heap exhaustion
is a panic we do not model). -/
structure DescriptorHeapCache where
  next : Nat
  cache : List (DescriptorHeapCacheKey × Nat)
deriving DecidableEq

/-- The `descriptor_heap_caches` map of `RenderGraphCache`, keyed by the
(pointer identity of the) `&'static DescriptorSetInfo`, modelled as a `Nat`
id. -/
abbrev DescriptorHeapCaches := List (Nat × DescriptorHeapCache)

/-- `RenderGraphCache::alloc_descriptor`: register the layout's heap cache
if absent, then return the cached descriptor for the key or allocate a fresh
one. -/
def allocDescriptor (caches : DescriptorHeapCaches) (info : Nat)
    (key : DescriptorHeapCacheKey) : DescriptorHeapCaches × Nat :=
  let hc := (alookup caches info).getD { next := 0, cache := [] }
  match alookup hc.cache key with
  | some h => (alistSet caches info hc, h)
  | none =>
    (alistSet caches info
      { next := hc.next + 1, cache := alistSet hc.cache key hc.next }, hc.next)

/-! ### Virtual-to-physical maps (`VirtualToPhysicalResourceMap`) -/

/-- `VirtualToPhysicalResourceMap::map_physical`: `entry(handle).or_insert`,
so an already-bound virtual id is never remapped. -/
def mapPhysical {α : Type _} (m : List (Nat × α)) (k : Nat) (v : α) :
    List (Nat × α) :=
  if (alookup m k).isSome then m else m ++ [(k, v)]

/-! ### The allocator (`GraphPhysicalResourceMap`) -/

/-- The attachment cache key of an owned resource, when it is an
`Attachment`. -/
def attachmentKeyOf : GraphOwnedResource → Option AttachmentCacheKey
  | .Attachment _ w h f u _ _ => some ⟨w, h, f, u⟩
  | _ => none

/-- The buffer cache key of an owned resource, when it is a `Buffer`. -/
def bufferKeyOf : GraphOwnedResource → Option BufferCacheKey
  | .Buffer _ s u l => some ⟨s, u, l⟩
  | _ => none

/-- Group the graph's virtual attachments by cache key, in resource-id
order within each group (the `attachment_type_to_virtual` map of
`GraphPhysicalResourceMap::alloc_attachments`). -/
def groupByKey {κ : Type _} [DecidableEq κ]
    (keyOf : GraphOwnedResource → Option κ) (G : RenderGraph) :
    List (κ × List Nat) :=
  G.owned_resources.enum.foldl
    (fun m p =>
      match keyOf p.2 with
      | some k => alistSet m k ((alookup m k).getD [] ++ [p.1])
      | none => m) []

/-- `GraphPhysicalResourceMap::alloc_attachments`: allocate enough physical
attachments per key, then bind each virtual id, in discovery order, to the
pool slot of its group index. -/
def graphAllocAttachments (G : RenderGraph) (c : AttachmentCache) :
    AttachmentCache × List (Nat × Nat) :=
  let groups := groupByKey attachmentKeyOf G
  let c' := groups.foldl (fun c p => c.allocAttachments p.1 p.2.length) c
  (c', groups.foldl
    (fun m p =>
      (p.2.enum.foldl (fun m q => mapPhysical m q.2 ((c'.pool p.1).getD q.1 0)) m))
    [])

/-- `GraphPhysicalResourceMap::alloc_buffers`. -/
def graphAllocBuffers (G : RenderGraph) (c : BufferCache) :
    BufferCache × List (Nat × Nat) :=
  let groups := groupByKey bufferKeyOf G
  let c' := groups.foldl (fun c p => c.allocBuffers p.1 p.2.length) c
  (c', groups.foldl
    (fun m p =>
      (p.2.enum.foldl (fun m q => mapPhysical m q.2 ((c'.pool p.1).getD q.1 0)) m))
    [])

/-- `AttachmentDescription` built for one render-pass attachment handle in
`GraphPhysicalResourceMap::alloc_render_passes`: the initial layout is
`Undefined`, the final layout is the layout recorded on the mutable handle
stored in the `RenderPass` resource.  `none` models the `unreachable!` arm
(the handle does not denote an `Attachment` resource). -/
def attachmentDescOf (G : RenderGraph) (h : MutableGraphAttachmentHandle) :
    Option AttachmentDescription :=
  match G.owned_resources.get? h.id with
  | some (.Attachment _ _ _ format usage load_op store_op) =>
    some { format := format, usage := usage, load_op := load_op,
           store_op := store_op, initial_layout := ImageLayout.Undefined,
           final_layout := h.layout }
  | _ => none

/-- Build the per-attachment descriptions of a render pass in order. -/
def mapAttachmentDescs (G : RenderGraph) :
    List MutableGraphAttachmentHandle → Option (List AttachmentDescription)
  | [] => some []
  | h :: t =>
    match attachmentDescOf G h with
    | none => none
    | some d => (mapAttachmentDescs G t).map (d :: ·)

/-- The `RenderPassCacheKey` built by
`GraphPhysicalResourceMap::alloc_render_passes` for a `RenderPass` owned
resource. -/
def renderPassKeyOf (G : RenderGraph) : GraphOwnedResource →
    Option RenderPassCacheKey
  | .RenderPass _ colors depth =>
    match mapAttachmentDescs G colors with
    | none => none
    | some cds =>
      match depth with
      | none => some { color_attachment_descs := cds, depth_attachment_desc := none }
      | some d =>
        match attachmentDescOf G d with
        | none => none
        | some dd =>
          some { color_attachment_descs := cds, depth_attachment_desc := some dd }
  | _ => none

/-! ### Descriptor allocation (`GraphPhysicalResourceMap::alloc_descriptors`) -/

/-- `VirtualToPhysicalResourceMap::get_physical` (panicking map index). -/
def getPhysical {α : Type _} (m : List (Nat × α)) (k : Nat) : Option α :=
  alookup m k

/-- Panics of the allocator (`unreachable!` arms and panicking lookups). -/
inductive AllocError where
  | invalidHandle
deriving DecidableEq

/-- Resolve one owned-resource descriptor binding to its cache-key identity,
as in the `key_bindings` construction of `alloc_descriptors`. -/
def resolveKeyBinding (G : RenderGraph) (amap bmap : List (Nat × Nat)) :
    GraphOwnedResourceDescriptorBinding →
    Except AllocError DescriptorHeapCacheKeyBinding
  | .ImportedBuffer h =>
    match G.imported_resources.get? h with
    | some (.Buffer raw _) => .ok (.ImportedBuffer raw)
    | _ => .error .invalidHandle
  | .ImportedTexture h =>
    match G.imported_resources.get? h with
    | some (.Texture img smp view) => .ok (.ImportedTexture img smp view)
    | _ => .error .invalidHandle
  | .Buffer b =>
    match getPhysical bmap b.id with
    | some p => .ok (.Buffer p)
    | none => .error .invalidHandle
  | .MutableBuffer b =>
    match getPhysical bmap b.id with
    | some p => .ok (.Buffer p)
    | none => .error .invalidHandle
  | .Attachment a =>
    match getPhysical amap a.id with
    | some p => .ok (.Attachment p)
    | none => .error .invalidHandle
  | .MutableAttachment a =>
    match getPhysical amap a.id with
    | some p => .ok (.Attachment p)
    | none => .error .invalidHandle

/-- One `update_descriptor` call: the physical descriptor written, its
layout, and the buffer/image writes.  Mirroring the source's filters, the
buffer list holds only the `ImportedBuffer` bindings (resolved to their raw
device buffer) and the image list only the `Attachment` bindings (resolved
to their physical attachment index, with the read handle's final layout). -/
structure UpdateEvent where
  descriptor_layout : Nat
  handle : Nat
  buffers : List (Nat × Nat)
  images : List (Nat × Nat × ImageLayout)
deriving DecidableEq

/-- The buffer writes of one `update_descriptor` call. -/
def updateBuffers (G : RenderGraph)
    (bindings : List (Nat × GraphOwnedResourceDescriptorBinding)) :
    Except AllocError (List (Nat × Nat)) :=
  (bindings.filter (fun p =>
      match p.2 with
      | .ImportedBuffer _ => true
      | _ => false)).mapM
    (fun p =>
      match p.2 with
      | .ImportedBuffer h =>
        match G.imported_resources.get? h with
        | some (.Buffer raw _) => .ok (p.1, raw)
        | _ => .error AllocError.invalidHandle
      | _ => .error AllocError.invalidHandle)

/-- The image writes of one `update_descriptor` call. -/
def updateImages (amap : List (Nat × Nat))
    (bindings : List (Nat × GraphOwnedResourceDescriptorBinding)) :
    Except AllocError (List (Nat × Nat × ImageLayout)) :=
  (bindings.filter (fun p =>
      match p.2 with
      | .Attachment _ => true
      | _ => false)).mapM
    (fun p =>
      match p.2 with
      | .Attachment a =>
        match getPhysical amap a.id with
        | some phys => .ok (p.1, phys, a.final_layout)
        | none => .error AllocError.invalidHandle
      | _ => .error AllocError.invalidHandle)

/-- State threaded through `alloc_descriptors`. -/
structure AllocDescriptorsState where
  caches : DescriptorHeapCaches
  map : List (Nat × (Nat × Nat))
  updates : List UpdateEvent
deriving DecidableEq

/-- The body of `GraphPhysicalResourceMap::alloc_descriptors`, iterating
`owned_resources` in id order: for each `DescriptorSet` resource, resolve
the cache key, allocate (or reuse) the physical descriptor, bind the virtual
id, and unconditionally issue one `update_descriptor` call. -/
def allocDescriptorsGo (G : RenderGraph) (amap bmap : List (Nat × Nat)) :
    Nat → List GraphOwnedResource → AllocDescriptorsState →
    Except AllocError AllocDescriptorsState
  | _, [], st => .ok st
  | id, r :: rs, st =>
    match r with
    | .DescriptorSet _ layout bindings =>
      match (bindings.mapM (fun p =>
          (resolveKeyBinding G amap bmap p.2).map (fun kb => (p.1, kb)))) with
      | .error e => .error e
      | .ok kbs =>
        let key : DescriptorHeapCacheKey := { bindings := kbs }
        let r' := allocDescriptor st.caches layout key
        match updateBuffers G bindings with
        | .error e => .error e
        | .ok bufs =>
          match updateImages amap bindings with
          | .error e => .error e
          | .ok imgs =>
            allocDescriptorsGo G amap bmap (id + 1) rs
              { caches := r'.1
                map := mapPhysical st.map id (r'.2, layout)
                updates := st.updates ++
                  [{ descriptor_layout := layout, handle := r'.2,
                     buffers := bufs, images := imgs }] }
    | _ => allocDescriptorsGo G amap bmap (id + 1) rs st

/-- `GraphPhysicalResourceMap::alloc_descriptors`. -/
def allocDescriptors (G : RenderGraph) (caches : DescriptorHeapCaches)
    (amap bmap : List (Nat × Nat)) : Except AllocError AllocDescriptorsState :=
  allocDescriptorsGo G amap bmap 0 G.owned_resources
    { caches := caches, map := [], updates := [] }

/-! ### The builder API (`RenderGraph::add_pass`, `PassBuilder`)

Caller programs are modelled as a list of builder operations.  Mutable
handles held by the caller live in per-kind environments (`attEnv`,
`bufEnv`, `rpEnv`) indexed by small variables; `PassBuilder::add_render_pass`
and the `MutableBuffer` descriptor binding mutate the referenced handle in
place, exactly as the `&mut` parameters do in the source.  A read-handle
argument (`DescriptorBindingDesc::Attachment` / `::Buffer`) is the `read()`
of the current state of the referenced mutable handle. -/

/-- `AttachmentDesc`. -/
structure AttachmentDesc where
  name : String
  width : Nat
  height : Nat
  format : TextureFormat
  load_op : LoadOp
  store_op : StoreOp
  usage : TextureUsage
deriving DecidableEq

/-- `BufferDesc`. -/
structure BufferDesc where
  name : String
  size : Nat
  usage : BufferUsage
  location : MemoryLocation
deriving DecidableEq

/-- `DescriptorBindingDesc`, with handle arguments referencing builder
environment variables. -/
inductive BindingDescOp where
  | importedBuffer (raw size : Nat)
  | importedTexture (image sampler image_view : Nat)
  | buffer (v : Nat)
  | mutableBuffer (v : Nat)
  | attachment (v : Nat)
  | mutableAttachment (v : Nat)
deriving DecidableEq

/-- One builder call of a caller program. -/
inductive BuildOp where
  | addPass (name : String)
  | addAttachment (desc : AttachmentDesc)
  | addBuffer (desc : BufferDesc)
  | addRenderPass (name : String) (colors : List Nat) (depth : Option Nat)
  | addOutputRenderPass
  | addDescriptorSet (name : String) (layout : Nat)
      (bindings : List (Nat × BindingDescOp))
  | cmdBeginRenderPass (rpVar : Nat) (clear_values : List Nat)
  | cmdEndRenderPass
  | cmdDraw (vertex_count instance_count first_vertex first_instance : Nat)
deriving DecidableEq

/-- Failures of the embedded builder.  `badVar` marks an out-of-range
environment variable (caller programs that would not compile in Rust);
`unimplementedPanic` is the `unimplemented!()` arm of
`PassBuilder::add_descriptor_set` on a `MutableAttachment` binding. -/
inductive BuildError where
  | noPass
  | badVar
  | unimplementedPanic
deriving DecidableEq

/-- Builder interpreter state. -/
structure BuilderState where
  graph : RenderGraph
  cur : Option RecordedPass
  attEnv : List MutableGraphAttachmentHandle
  bufEnv : List MutableGraphBufferHandle
  rpEnv : List Nat
deriving DecidableEq

/-- `RenderGraph::import_resource`: deduplicate by identity, else append. -/
def importResource (G : RenderGraph) (r : GraphImportedResource) :
    RenderGraph × Nat :=
  match G.imported_resources.findIdx? (· = r) with
  | some i => (G, i)
  | none =>
    ({ G with imported_resources := G.imported_resources ++ [r] },
     G.imported_resources.length)

/-- `RenderGraph::create_resource`. -/
def createResource (G : RenderGraph) (pass : Nat) (r : GraphOwnedResource) :
    RenderGraph × Nat :=
  let id := G.owned_resources.length
  ({ G with
      owned_resources := G.owned_resources ++ [r]
      resource_to_owning_pass := G.resource_to_owning_pass ++ [(id, pass)] },
   id)

/-- `PassBuilder::add_attachment`: create the owned resource and hand the
caller a mutable handle with `Undefined` layout and empty stage/access. -/
def stepAddAttachment (st : BuilderState) (d : AttachmentDesc) :
    Except BuildError BuilderState :=
  match st.cur with
  | none => .error .noPass
  | some cur =>
    let r := createResource st.graph cur.pass
      (.Attachment d.name d.width d.height d.format d.usage d.load_op d.store_op)
    .ok { st with
      graph := r.1
      attEnv := st.attEnv ++
        [{ id := r.2, layout := ImageLayout.Undefined,
           stage := vk.emptyFlags, access := vk.emptyFlags }] }

/-- `PassBuilder::add_buffer`. -/
def stepAddBuffer (st : BuilderState) (d : BufferDesc) :
    Except BuildError BuilderState :=
  match st.cur with
  | none => .error .noPass
  | some cur =>
    let r := createResource st.graph cur.pass
      (.Buffer d.name d.size d.usage d.location)
    .ok { st with
      graph := r.1
      bufEnv := st.bufEnv ++
        [{ id := r.2, stage := vk.emptyFlags, access := vk.emptyFlags }] }

/-- The per-color-attachment mutation of `PassBuilder::add_render_pass`:
set layout/access/stage to the color-attachment-output profile on the
caller's handle, register the updated handle in the write set, and collect
it. -/
def rpProcessColors (attEnv : List MutableGraphAttachmentHandle)
    (writes : List MutableGraphAttachmentHandle) :
    List Nat → Except BuildError
      (List MutableGraphAttachmentHandle × List MutableGraphAttachmentHandle ×
        List MutableGraphAttachmentHandle)
  | [] => .ok (attEnv, writes, [])
  | v :: vs =>
    match attEnv.get? v with
    | none => .error .badVar
    | some a =>
      let a' : MutableGraphAttachmentHandle :=
        { a with layout := ImageLayout.ColorAttachmentOptimal,
                 access := vk.COLOR_ATTACHMENT_WRITE,
                 stage := vk.COLOR_ATTACHMENT_OUTPUT }
      match rpProcessColors (attEnv.set v a') (hsInsert writes a') vs with
      | .error e => .error e
      | .ok (env', w', hs) => .ok (env', w', a' :: hs)

/-- `PassBuilder::add_render_pass`. -/
def stepAddRenderPass (st : BuilderState) (name : String)
    (colors : List Nat) (depth : Option Nat) : Except BuildError BuilderState :=
  match st.cur with
  | none => .error .noPass
  | some cur =>
    match rpProcessColors st.attEnv cur.write_attachments colors with
    | .error e => .error e
    | .ok (attEnv, writes, colorHandles) =>
      match depth with
      | none =>
        let r := createResource st.graph cur.pass (.RenderPass name colorHandles none)
        .ok { st with
          graph := r.1
          cur := some { cur with write_attachments := writes }
          attEnv := attEnv
          rpEnv := st.rpEnv ++ [r.2] }
      | some v =>
        match attEnv.get? v with
        | none => .error .badVar
        | some a =>
          let a' : MutableGraphAttachmentHandle :=
            { a with layout := ImageLayout.DepthStencilAttachmentOptimal,
                     access := vk.DEPTH_STENCIL_ATTACHMENT_WRITE,
                     stage := vk.LATE_FRAGMENT_TESTS }
          let r := createResource st.graph cur.pass
            (.RenderPass name colorHandles (some a'))
          .ok { st with
            graph := r.1
            cur := some { cur with write_attachments := hsInsert writes a' }
            attEnv := attEnv.set v a'
            rpEnv := st.rpEnv ++ [r.2] }

/-- `PassBuilder::add_output_render_pass`. -/
def stepAddOutputRenderPass (st : BuilderState) : Except BuildError BuilderState :=
  match st.cur with
  | none => .error .noPass
  | some cur =>
    let r := createResource st.graph cur.pass .OutputRenderPass
    .ok { st with graph := r.1, rpEnv := st.rpEnv ++ [r.2] }

/-- Intermediate state while processing the bindings of
`PassBuilder::add_descriptor_set`. -/
structure DescBindState where
  graph : RenderGraph
  cur : RecordedPass
  attEnv : List MutableGraphAttachmentHandle
  bufEnv : List MutableGraphBufferHandle
deriving DecidableEq

/-- Process one binding of `PassBuilder::add_descriptor_set`: imported
resources are interned; `Buffer` / `Attachment` read bindings register the
read in the pass's read set; `MutableBuffer` updates the caller's handle to
the shader read/write profile and registers the write; `MutableAttachment`
hits `unimplemented!()`. -/
def processBinding1 (st : DescBindState) :
    BindingDescOp →
    Except BuildError (DescBindState × GraphOwnedResourceDescriptorBinding)
  | .importedBuffer raw size =>
    let r := importResource st.graph (.Buffer raw size)
    .ok ({ st with graph := r.1 }, .ImportedBuffer r.2)
  | .importedTexture img smp view =>
    let r := importResource st.graph (.Texture img smp view)
    .ok ({ st with graph := r.1 }, .ImportedTexture r.2)
  | .buffer v =>
    match st.bufEnv.get? v with
    | none => .error .badVar
    | some m =>
      .ok ({ st with cur :=
        { st.cur with read_buffers := hsInsert st.cur.read_buffers m.read } },
        .Buffer m.read)
  | .mutableBuffer v =>
    match st.bufEnv.get? v with
    | none => .error .badVar
    | some m =>
      let m' : MutableGraphBufferHandle :=
        { m with
            stage := vk.VERTEX_SHADER ||| vk.FRAGMENT_SHADER ||| vk.COMPUTE_SHADER,
            access := vk.SHADER_READ ||| vk.SHADER_WRITE }
      .ok ({ st with
        bufEnv := st.bufEnv.set v m'
        cur := { st.cur with
          write_buffers := hsInsert st.cur.write_buffers m' } },
        .MutableBuffer m')
  | .attachment v =>
    match st.attEnv.get? v with
    | none => .error .badVar
    | some m =>
      .ok ({ st with cur :=
        { st.cur with read_attachments := hsInsert st.cur.read_attachments m.read } },
        .Attachment m.read)
  | .mutableAttachment _ => .error .unimplementedPanic

/-- Process the binding list of `PassBuilder::add_descriptor_set` in
order. -/
def processBindings (st : DescBindState) :
    List (Nat × BindingDescOp) →
    Except BuildError
      (DescBindState × List (Nat × GraphOwnedResourceDescriptorBinding))
  | [] => .ok (st, [])
  | (i, b) :: bs =>
    match processBinding1 st b with
    | .error e => .error e
    | .ok (st', rb) =>
      match processBindings st' bs with
      | .error e => .error e
      | .ok (st'', rest) => .ok (st'', (i, rb) :: rest)

/-- `PassBuilder::add_descriptor_set`. -/
def stepAddDescriptorSet (st : BuilderState) (name : String) (layout : Nat)
    (bindings : List (Nat × BindingDescOp)) : Except BuildError BuilderState :=
  match st.cur with
  | none => .error .noPass
  | some cur =>
    match processBindings
        { graph := st.graph, cur := cur, attEnv := st.attEnv, bufEnv := st.bufEnv }
        bindings with
    | .error e => .error e
    | .ok (dst, resolved) =>
      let r := createResource dst.graph dst.cur.pass
        (.DescriptorSet name layout resolved)
      .ok { st with
        graph := r.1
        cur := some dst.cur
        attEnv := dst.attEnv
        bufEnv := dst.bufEnv }

/-- Append a command to the pass under construction. -/
def pushCmd (st : BuilderState) (c : PassCmd) : Except BuildError BuilderState :=
  match st.cur with
  | none => .error .noPass
  | some cur => .ok { st with cur := some { cur with cmds := cur.cmds ++ [c] } }

/-- Finish the pass under construction (the `Drop` impl of `PassBuilder`,
which calls `RenderGraph::record_pass`), then start a new one whose
`PassHandle` is the next pass index. -/
def stepAddPass (st : BuilderState) (name : String) : BuilderState :=
  let G :=
    match st.cur with
    | none => st.graph
    | some cur => { st.graph with passes := st.graph.passes ++ [cur] }
  { st with
    graph := G
    cur := some
      { name := name, pass := G.passes.length, cmds := [],
        read_attachments := [], write_attachments := [],
        read_buffers := [], write_buffers := [] } }

/-- Interpret one builder operation. -/
def interpOp (st : BuilderState) : BuildOp → Except BuildError BuilderState
  | .addPass name => .ok (stepAddPass st name)
  | .addAttachment d => stepAddAttachment st d
  | .addBuffer d => stepAddBuffer st d
  | .addRenderPass name colors depth => stepAddRenderPass st name colors depth
  | .addOutputRenderPass => stepAddOutputRenderPass st
  | .addDescriptorSet name layout bs => stepAddDescriptorSet st name layout bs
  | .cmdBeginRenderPass v cv =>
    match st.rpEnv.get? v with
    | none => .error .badVar
    | some rp => pushCmd st (.BeginRenderPass rp cv)
  | .cmdEndRenderPass => pushCmd st .EndRenderPass
  | .cmdDraw a b c d => pushCmd st (.Draw a b c d)

/-- Interpret a caller program. -/
def interpOps (st : BuilderState) : List BuildOp → Except BuildError BuilderState
  | [] => .ok st
  | op :: ops =>
    match interpOp st op with
    | .error e => .error e
    | .ok st' => interpOps st' ops

/-- The empty builder state (`RenderGraph::new`). -/
def initialBuilderState : BuilderState :=
  { graph := { passes := [], owned_resources := [],
               resource_to_owning_pass := [], imported_resources := [] }
    cur := none, attEnv := [], bufEnv := [], rpEnv := [] }

/-- Run a caller program and finish the last pass builder. -/
def buildGraph (ops : List BuildOp) : Except BuildError RenderGraph :=
  match interpOps initialBuilderState ops with
  | .error e => .error e
  | .ok st =>
    match st.cur with
    | none => .ok st.graph
    | some cur => .ok { st.graph with passes := st.graph.passes ++ [cur] }

/-! ### Concrete example graphs used in witnesses and counterexamples -/

/-- An 800×600 depth attachment descriptor. -/
def depthDesc : AttachmentDesc :=
  { name := "depth", width := 800, height := 600, format := TextureFormat.Depth,
    load_op := LoadOp.Clear, store_op := StoreOp.Store, usage := 2 }

/-- A small caller program: pass `geometry` renders into a depth attachment,
pass `fullscreen` samples it and draws into the output sentinel, pass
`unused` creates a buffer nobody reads. -/
def exampleOps : List BuildOp :=
  [ BuildOp.addPass "geometry",
    BuildOp.addAttachment depthDesc,
    BuildOp.addRenderPass "geo_rp" [] (some 0),
    BuildOp.cmdBeginRenderPass 0 [1],
    BuildOp.cmdDraw 3 1 0 0,
    BuildOp.cmdEndRenderPass,
    BuildOp.addPass "fullscreen",
    BuildOp.addDescriptorSet "ds" 5 [(0, BindingDescOp.attachment 0)],
    BuildOp.addOutputRenderPass,
    BuildOp.cmdBeginRenderPass 1 [2],
    BuildOp.cmdDraw 3 1 0 0,
    BuildOp.cmdEndRenderPass,
    BuildOp.addPass "unused",
    BuildOp.addBuffer
      { name := "junk", size := 4, usage := 2, location := MemoryLocation.GpuOnly } ]

/-- The graph built by `exampleOps`. -/
def exampleGraph : RenderGraph :=
  (buildGraph exampleOps).toOption.getD initialBuilderState.graph

/-- A graph with no `OutputRenderPass` resource. -/
def gZeroOutputs : RenderGraph :=
  { passes := [], owned_resources := [], resource_to_owning_pass := [],
    imported_resources := [] }

/-- A graph with two `OutputRenderPass` resources. -/
def gTwoOutputs : RenderGraph :=
  { passes :=
      [{ name := "p", pass := 0, cmds := [], read_attachments := [],
         write_attachments := [], read_buffers := [], write_buffers := [] }],
    owned_resources := [GraphOwnedResource.OutputRenderPass,
                        GraphOwnedResource.OutputRenderPass],
    resource_to_owning_pass := [(0, 0), (1, 0)], imported_resources := [] }

/-- A graph with two `DescriptorSet` resources whose bindings resolve to the
same descriptor cache key (the same imported buffer). -/
def ddExampleGraph : RenderGraph :=
  { passes := [],
    owned_resources :=
      [ GraphOwnedResource.DescriptorSet "a" 3
          [(0, GraphOwnedResourceDescriptorBinding.ImportedBuffer 0)],
        GraphOwnedResource.DescriptorSet "b" 3
          [(0, GraphOwnedResourceDescriptorBinding.ImportedBuffer 0)] ],
    resource_to_owning_pass := [], imported_resources := [.Buffer 42 16] }

/-- The one pass of `cyclicGraph`: it reads the attachment it itself owns. -/
def cyclicRp : RecordedPass :=
  { name := "cyc", pass := 0, cmds := [],
    read_attachments :=
      [{ id := 0, src_stage := 0, dst_stage := 0, src_access := 0,
         dst_access := 0, initial_layout := ImageLayout.Undefined,
         final_layout := ImageLayout.ShaderReadOnlyOptimal }],
    write_attachments := [], read_buffers := [], write_buffers := [] }

/-- A cyclic graph: pass 0 reads an attachment that pass 0 itself owns. -/
def cyclicGraph : RenderGraph :=
  { passes := [cyclicRp],
    owned_resources :=
      [GraphOwnedResource.Attachment "a" 1 1 TextureFormat.RGBA8 2
        LoadOp.Clear StoreOp.Store,
       GraphOwnedResource.OutputRenderPass],
    resource_to_owning_pass := [(0, 0), (1, 0)], imported_resources := [] }

/-! ### C2: the single-output check of `execute` -/

theorem length_filter_enumFrom (pred : GraphOwnedResource → Bool) :
    ∀ (l : List GraphOwnedResource) (n : Nat),
    ((List.enumFrom n l).filter (fun p => pred p.2)).length
      = (l.filter pred).length := by
  intro l
  induction l with
  | nil => intro n; rfl
  | cons r rs ih =>
    intro n
    by_cases h : pred r <;> simp [List.enumFrom, List.filter, h, ih]

theorem length_outputResources (G : RenderGraph) :
    (outputResources G).length
      = (G.owned_resources.filter GraphOwnedResource.isOutput).length := by
  unfold outputResources
  rw [List.length_map, List.enum]
  exact length_filter_enumFrom _ _ 0

/-- C2.  A graph with zero `OutputRenderPass` resources, or with two or
more, makes `execute` fail with the fatal output-count panic before any
pass is replayed; a graph with exactly one such resource never fails with
that panic. -/
theorem c2_single_sink_invariant (G : RenderGraph) (fuel : Nat) :
    ((G.owned_resources.filter GraphOwnedResource.isOutput).length = 0 →
      execute G fuel = .error ExecError.outputCountPanic)
    ∧ (2 ≤ (G.owned_resources.filter GraphOwnedResource.isOutput).length →
      execute G fuel = .error ExecError.outputCountPanic)
    ∧ ((G.owned_resources.filter GraphOwnedResource.isOutput).length = 1 →
      execute G fuel ≠ .error ExecError.outputCountPanic) := by
  have hlen := length_outputResources G
  refine ⟨?_, ?_, ?_⟩
  · intro h0
    unfold execute
    rw [if_pos (by omega)]
  · intro h2
    unfold execute
    rw [if_pos (by omega)]
  · intro h1
    unfold execute
    rw [if_neg (by omega)]
    split
    · rename_i heq
      rw [List.head?_eq_none_iff] at heq
      rw [heq] at hlen
      simp at hlen
      omega
    · split
      · intro h; cases h
      · split
        · intro h; cases h
        · intro h; cases h

/-- Witness for C2 at concrete inputs: the empty graph and a two-output
graph panic, the example graph does not panic on this check. -/
theorem c2_witness :
    ((gZeroOutputs.owned_resources.filter GraphOwnedResource.isOutput).length = 0
      ∧ execute gZeroOutputs 9 = .error ExecError.outputCountPanic)
    ∧ (2 ≤ (gTwoOutputs.owned_resources.filter GraphOwnedResource.isOutput).length
      ∧ execute gTwoOutputs 9 = .error ExecError.outputCountPanic)
    ∧ ((exampleGraph.owned_resources.filter GraphOwnedResource.isOutput).length = 1
      ∧ execute exampleGraph 9 ≠ .error ExecError.outputCountPanic) :=
  ⟨⟨by decide, (c2_single_sink_invariant gZeroOutputs 9).1 (by decide)⟩,
   ⟨by decide, (c2_single_sink_invariant gTwoOutputs 9).2.1 (by decide)⟩,
   ⟨by decide, (c2_single_sink_invariant exampleGraph 9).2.2 (by decide)⟩⟩

/-! ### C10: `MutableAttachment` descriptor bindings are unimplemented -/

/-- Environment variables referenced by a binding are in range (in Rust
this is enforced by the borrow checker: the caller passes real handles). -/
def bindingVarOk (attLen bufLen : Nat) : BindingDescOp → Bool
  | .buffer v => v < bufLen
  | .mutableBuffer v => v < bufLen
  | .attachment v => v < attLen
  | _ => true

theorem processBinding1_mutableAttachment (st : DescBindState) (v : Nat) :
    processBinding1 st (BindingDescOp.mutableAttachment v)
      = .error BuildError.unimplementedPanic := rfl

theorem processBinding1_env_lengths (st : DescBindState) (b : BindingDescOp)
    (st' : DescBindState) (rb : GraphOwnedResourceDescriptorBinding)
    (h : processBinding1 st b = .ok (st', rb)) :
    st'.attEnv.length = st.attEnv.length
      ∧ st'.bufEnv.length = st.bufEnv.length := by
  cases b with
  | importedBuffer raw size =>
    simp only [processBinding1] at h
    cases h
    exact ⟨rfl, rfl⟩
  | importedTexture img smp view =>
    simp only [processBinding1] at h
    cases h
    exact ⟨rfl, rfl⟩
  | buffer v =>
    simp only [processBinding1] at h
    split at h
    · cases h
    · cases h; exact ⟨rfl, rfl⟩
  | mutableBuffer v =>
    simp only [processBinding1] at h
    split at h
    · cases h
    · cases h
      exact ⟨rfl, by simp [List.length_set]⟩
  | attachment v =>
    simp only [processBinding1] at h
    split at h
    · cases h
    · cases h; exact ⟨rfl, rfl⟩
  | mutableAttachment v =>
    simp only [processBinding1] at h
    cases h

theorem processBinding1_ok_of_varOk (st : DescBindState) (b : BindingDescOp)
    (hok : bindingVarOk st.attEnv.length st.bufEnv.length b = true)
    (hma : ∀ v, b ≠ BindingDescOp.mutableAttachment v) :
    ∃ st' rb, processBinding1 st b = .ok (st', rb) := by
  cases b with
  | importedBuffer raw size => exact ⟨_, _, rfl⟩
  | importedTexture img smp view => exact ⟨_, _, rfl⟩
  | buffer v =>
    simp only [bindingVarOk, decide_eq_true_eq] at hok
    simp only [processBinding1]
    cases hg : st.bufEnv.get? v with
    | none => exact absurd (List.get?_eq_none.mp hg) (by omega)
    | some m => exact ⟨_, _, rfl⟩
  | mutableBuffer v =>
    simp only [bindingVarOk, decide_eq_true_eq] at hok
    simp only [processBinding1]
    cases hg : st.bufEnv.get? v with
    | none => exact absurd (List.get?_eq_none.mp hg) (by omega)
    | some m => exact ⟨_, _, rfl⟩
  | attachment v =>
    simp only [bindingVarOk, decide_eq_true_eq] at hok
    simp only [processBinding1]
    cases hg : st.attEnv.get? v with
    | none => exact absurd (List.get?_eq_none.mp hg) (by omega)
    | some m => exact ⟨_, _, rfl⟩
  | mutableAttachment v => exact absurd rfl (hma v)

theorem processBindings_mutableAttachment :
    ∀ (bs : List (Nat × BindingDescOp)) (dst : DescBindState),
    (∃ p ∈ bs, ∃ v, p.2 = BindingDescOp.mutableAttachment v) →
    (∀ p ∈ bs, bindingVarOk dst.attEnv.length dst.bufEnv.length p.2) →
    processBindings dst bs = .error BuildError.unimplementedPanic := by
  intro bs
  induction bs with
  | nil => rintro dst ⟨p, hp, _⟩ _; cases hp
  | cons hd tl ih =>
    rintro dst ⟨p, hp, v, hv⟩ hok
    obtain ⟨i, b⟩ := hd
    by_cases hbma : ∃ v', b = BindingDescOp.mutableAttachment v'
    · obtain ⟨v', rfl⟩ := hbma
      simp only [processBindings, processBinding1_mutableAttachment]
    · have hptl : p ∈ tl := by
        rcases List.mem_cons.mp hp with rfl | h
        · exact absurd ⟨v, hv⟩ hbma
        · exact h
      have hok1 := hok (i, b) (List.mem_cons_self _ _)
      obtain ⟨st', rb, hpb⟩ := processBinding1_ok_of_varOk dst b hok1
        (fun v' hv' => hbma ⟨v', hv'⟩)
      have hlen := processBinding1_env_lengths dst b st' rb hpb
      simp only [processBindings, hpb]
      rw [ih st' ⟨p, hptl, v, hv⟩ (by
        intro q hq
        have := hok q (List.mem_cons_of_mem _ hq)
        rw [hlen.1, hlen.2]
        exact this)]

/-- C10.  Any `add_descriptor_set` call whose binding list contains a
`MutableAttachment` binding panics: the match arm is `unimplemented!()`. -/
theorem c10_mutable_attachment_unimplemented (st : BuilderState)
    (cur : RecordedPass) (name : String) (layout : Nat)
    (bindings : List (Nat × BindingDescOp))
    (hcur : st.cur = some cur)
    (hma : ∃ p ∈ bindings, ∃ v, p.2 = BindingDescOp.mutableAttachment v)
    (hok : ∀ p ∈ bindings, bindingVarOk st.attEnv.length st.bufEnv.length p.2) :
    interpOp st (BuildOp.addDescriptorSet name layout bindings)
      = .error BuildError.unimplementedPanic := by
  simp only [interpOp, stepAddDescriptorSet, hcur]
  rw [processBindings_mutableAttachment bindings
    { graph := st.graph, cur := cur, attEnv := st.attEnv, bufEnv := st.bufEnv }
    hma hok]

/-- Witness for C10: a concrete builder state and binding list containing a
`MutableAttachment` binding. -/
theorem c10_witness :
    interpOp (stepAddPass initialBuilderState "p")
      (BuildOp.addDescriptorSet "ds" 0 [(0, BindingDescOp.mutableAttachment 0)])
      = .error BuildError.unimplementedPanic :=
  c10_mutable_attachment_unimplemented (stepAddPass initialBuilderState "p")
    { name := "p", pass := 0, cmds := [], read_attachments := [],
      write_attachments := [], read_buffers := [], write_buffers := [] }
    "ds" 0 [(0, BindingDescOp.mutableAttachment 0)] rfl
    ⟨(0, BindingDescOp.mutableAttachment 0), by decide, 0, rfl⟩ (by decide)

/-! ### C9: virtual-to-physical bindings are stable (never remapped) -/

theorem alookup_foldl_mapPhysical {α : Type _} (k : Nat) :
    ∀ (bs : List (Nat × α)) (m : List (Nat × α)),
    alookup (bs.foldl (fun m p => mapPhysical m p.1 p.2) m) k
      = (match alookup m k with
         | some v => some v
         | none => ((bs.find? (fun p => p.1 == k)).map (·.2))) := by
  intro bs
  induction bs with
  | nil =>
    intro m
    cases h : alookup m k <;> simp [h]
  | cons hd tl ih =>
    intro m
    obtain ⟨k', v'⟩ := hd
    simp only [List.foldl_cons, ih]
    by_cases hk : k' = k
    · subst hk
      unfold mapPhysical
      cases hm : alookup m k' with
      | some v =>
        simp [hm, List.find?_cons]
      | none =>
        simp only [hm, Option.isSome_none, Bool.false_eq_true, if_false]
        rw [alookup_append]
        simp [hm, alookup, Option.orElse, List.find?_cons]
    · unfold mapPhysical
      have hfind : List.find? (fun p => p.1 == k) ((k', v') :: tl)
          = List.find? (fun p => p.1 == k) tl := by
        simp [List.find?_cons, hk]
      cases hm : alookup m k' with
      | some v => simp [hm, hfind]
      | none =>
        simp only [hm, Option.isSome_none, Bool.false_eq_true, if_false]
        rw [alookup_append]
        cases h2 : alookup m k <;>
          simp [h2, alookup, hk, hfind, Option.orElse]

/-- C9 (amended).  `map_physical` uses `entry(..).or_insert`, so within one
execution a virtual id, once bound, keeps the first physical index it was
bound to: the final map sends each virtual id to the *first* binding
established for it, and later `map_physical` calls never remap it.
(Exclusivity in the other direction does not hold in general — see the
counterexample below.) -/
theorem c9_binding_stable {α : Type _} (bs : List (Nat × α)) (k : Nat) :
    alookup (bs.foldl (fun m p => mapPhysical m p.1 p.2) []) k
      = ((bs.find? (fun p => p.1 == k)).map (·.2)) := by
  rw [alookup_foldl_mapPhysical]
  simp [alookup]

/-- Counterexample to C9 as stated: in `ddExampleGraph` the two distinct
virtual descriptor-set ids 0 and 1 are both bound to the same physical
descriptor (handle 0 of layout 3) in a single execution. -/
theorem c9_counterexample :
    (allocDescriptors ddExampleGraph [] [] []).map
        (fun st => (alookup st.map 0, alookup st.map 1))
      = .ok (some (0, 3), some (0, 3)) ∧ (0 : Nat) ≠ 1 := by
  constructor
  · rfl
  · decide

/-! ### C3: descriptor updates are issued once per virtual resource,
not once per unique key -/

theorem allocDescriptorsGo_updates_length (G : RenderGraph)
    (amap bmap : List (Nat × Nat)) :
    ∀ (rs : List GraphOwnedResource) (id : Nat)
      (st0 st : AllocDescriptorsState),
    allocDescriptorsGo G amap bmap id rs st0 = .ok st →
    st.updates.length
      = st0.updates.length
        + (rs.filter GraphOwnedResource.isDescriptorSet).length := by
  intro rs
  induction rs with
  | nil =>
    intro id st0 st h
    simp only [allocDescriptorsGo] at h
    cases h
    simp
  | cons r t ih =>
    intro id st0 st h
    cases r with
    | DescriptorSet nm layout bindings =>
      simp only [allocDescriptorsGo] at h
      split at h
      · cases h
      · split at h
        · cases h
        · split at h
          · cases h
          · have := ih (id + 1) _ st h
            simp only [List.length_append, List.length_cons,
              List.length_nil] at this
            have hf : (List.filter GraphOwnedResource.isDescriptorSet
                (GraphOwnedResource.DescriptorSet nm layout bindings :: t)).length
                = (List.filter GraphOwnedResource.isDescriptorSet t).length + 1 := by
              simp [List.filter, GraphOwnedResource.isDescriptorSet]
            omega
    | RasterPipeline a b c d e f g h' i j k =>
      simp only [allocDescriptorsGo] at h
      have := ih (id + 1) st0 st h
      simpa [List.filter, GraphOwnedResource.isDescriptorSet] using this
    | ComputePipeline a b c =>
      simp only [allocDescriptorsGo] at h
      have := ih (id + 1) st0 st h
      simpa [List.filter, GraphOwnedResource.isDescriptorSet] using this
    | RenderPass a b c =>
      simp only [allocDescriptorsGo] at h
      have := ih (id + 1) st0 st h
      simpa [List.filter, GraphOwnedResource.isDescriptorSet] using this
    | OutputRenderPass =>
      simp only [allocDescriptorsGo] at h
      have := ih (id + 1) st0 st h
      simpa [List.filter, GraphOwnedResource.isDescriptorSet] using this
    | Attachment a b c d e f g =>
      simp only [allocDescriptorsGo] at h
      have := ih (id + 1) st0 st h
      simpa [List.filter, GraphOwnedResource.isDescriptorSet] using this
    | Buffer a b c d =>
      simp only [allocDescriptorsGo] at h
      have := ih (id + 1) st0 st h
      simpa [List.filter, GraphOwnedResource.isDescriptorSet] using this

/-- C3 (amended).  `alloc_descriptors` issues exactly one
`update_descriptor` call per virtual `DescriptorSet` resource of the graph:
the update is not deduplicated by cache key (only the physical allocation
is), so several virtual descriptor sets resolving to the same key each
issue their own update. -/
theorem c3_update_per_virtual_descriptor (G : RenderGraph)
    (caches : DescriptorHeapCaches) (amap bmap : List (Nat × Nat))
    (st : AllocDescriptorsState)
    (h : allocDescriptors G caches amap bmap = .ok st) :
    st.updates.length
      = (G.owned_resources.filter GraphOwnedResource.isDescriptorSet).length := by
  have := allocDescriptorsGo_updates_length G amap bmap G.owned_resources 0
    { caches := caches, map := [], updates := [] } st h
  simpa using this

/-- The allocator result on `ddExampleGraph`. -/
def ddAllocResult : AllocDescriptorsState :=
  (allocDescriptors ddExampleGraph [] [] []).toOption.getD
    { caches := [], map := [], updates := [] }

/-- Witness for C3 (amended) at a concrete input. -/
theorem c3_witness :
    allocDescriptors ddExampleGraph [] [] [] = .ok ddAllocResult
    ∧ ddAllocResult.updates.length
      = (ddExampleGraph.owned_resources.filter
          GraphOwnedResource.isDescriptorSet).length :=
  ⟨rfl,
   c3_update_per_virtual_descriptor ddExampleGraph [] [] [] ddAllocResult rfl⟩

/-- Counterexample to C3 as stated: in `ddExampleGraph` both virtual
descriptor sets resolve to one unique cache key / one physical descriptor
(handle 0), yet `update_descriptor` is issued twice for it, not once. -/
theorem c3_counterexample :
    (allocDescriptors ddExampleGraph [] [] []).map
        (fun st => (st.updates.filter (fun u => u.handle == 0)).length)
      = .ok 2 ∧ (2 : Nat) ≠ 1 := by
  constructor
  · rfl
  · decide

/-! ### C4: idempotent, additive attachment caching -/

theorem allocLoopGo_length :
    ∀ (k t : Nat) (pool : List Nat),
    ((allocLoopGo t pool k).2).length = pool.length + k := by
  intro k
  induction k with
  | zero => intro t pool; rfl
  | succ k ih =>
    intro t pool
    unfold allocLoopGo
    rw [ih]
    simp [List.length_append]
    omega

theorem allocLoop_noop (t : Nat) (pool : List Nat) (n : Nat)
    (h : ¬ pool.length < n) : allocLoop t pool n = (t, pool) := by
  unfold allocLoop
  have : n - pool.length = 0 := by omega
  rw [this]
  rfl

theorem allocLoop_length (t : Nat) (pool : List Nat) (n : Nat) :
    ((allocLoop t pool n).2).length = max pool.length n := by
  unfold allocLoop
  rw [allocLoopGo_length]
  omega

/-- Keys of an association list are duplicate-free. -/
def NodupKeys {κ β : Type _} (m : List (κ × β)) : Prop :=
  (m.map (·.1)).Nodup

theorem alookup_eq_none_of_not_mem {κ β : Type _} [DecidableEq κ]
    (m : List (κ × β)) (k : κ) (h : k ∉ m.map (·.1)) : alookup m k = none := by
  induction m with
  | nil => rfl
  | cons hd t ih =>
    obtain ⟨k', v⟩ := hd
    simp only [List.map_cons, List.mem_cons, not_or] at h
    obtain ⟨h1, h2⟩ := h
    have hne : ¬ (k' = k) := fun he => h1 he.symm
    simp only [alookup, if_neg hne]
    exact ih h2

theorem keys_alistSet {κ β : Type _} [DecidableEq κ]
    (m : List (κ × β)) (k : κ) (v : β) :
    (alistSet m k v).map (·.1) = if k ∈ m.map (·.1) then m.map (·.1)
      else m.map (·.1) ++ [k] := by
  induction m with
  | nil => simp [alistSet]
  | cons hd t ih =>
    obtain ⟨k', v'⟩ := hd
    by_cases hk : k' = k
    · subst hk
      simp [alistSet]
    · have hne : ¬ (k = k') := fun he => hk he.symm
      simp only [alistSet, if_neg hk, List.map_cons, ih, List.mem_cons, hne,
        false_or]
      by_cases hm : k ∈ t.map (·.1)
      · rw [if_pos hm, if_pos hm]
      · rw [if_neg hm, if_neg hm]; simp

theorem nodupKeys_alistSet {κ β : Type _} [DecidableEq κ]
    (m : List (κ × β)) (k : κ) (v : β) (h : NodupKeys m) :
    NodupKeys (alistSet m k v) := by
  unfold NodupKeys
  rw [keys_alistSet]
  by_cases hm : k ∈ m.map (·.1)
  · simpa [hm] using h
  · simp only [hm, if_false]
    refine List.Nodup.append h (List.nodup_singleton k) ?_
    intro a ha hak
    rw [List.mem_singleton] at hak
    exact hm (hak ▸ ha)

/-- The resource ids of an enumerated resource list whose key is `K`. -/
def idsWithKey {κ : Type _} [DecidableEq κ]
    (keyOf : GraphOwnedResource → Option κ)
    (l : List (Nat × GraphOwnedResource)) (K : κ) : List Nat :=
  (l.filter (fun p => keyOf p.2 = some K)).map (·.1)

theorem foldl_group_lookup {κ : Type _} [DecidableEq κ]
    (keyOf : GraphOwnedResource → Option κ) (K : κ) :
    ∀ (l : List (Nat × GraphOwnedResource)) (m : List (κ × List Nat)),
    alookup (l.foldl (fun m p =>
        match keyOf p.2 with
        | some k => alistSet m k ((alookup m k).getD [] ++ [p.1])
        | none => m) m) K
      = (if idsWithKey keyOf l K = [] then alookup m K
         else some ((alookup m K).getD [] ++ idsWithKey keyOf l K)) := by
  intro l
  induction l with
  | nil => intro m; simp [idsWithKey]
  | cons p t ih =>
    intro m
    simp only [List.foldl_cons]
    cases hkey : keyOf p.2 with
    | none =>
      rw [ih]
      have : idsWithKey keyOf (p :: t) K = idsWithKey keyOf t K := by
        simp [idsWithKey, List.filter_cons, hkey]
      rw [this]
    | some k =>
      by_cases hkK : k = K
      · rcases hkK with rfl
        have hids : idsWithKey keyOf (p :: t) k = p.1 :: idsWithKey keyOf t k := by
          simp [idsWithKey, List.filter_cons, hkey]
        rw [ih, hids]
        rw [alookup_alistSet_self]
        by_cases ht : idsWithKey keyOf t k = []
        · rw [if_pos ht, if_neg (List.cons_ne_nil _ _), ht]
        · rw [if_neg ht, if_neg (List.cons_ne_nil _ _)]
          simp
      · have hids : idsWithKey keyOf (p :: t) K = idsWithKey keyOf t K := by
          simp only [idsWithKey, List.filter_cons, hkey]
          have hne : ¬ (some k = some K) := by simpa using hkK
          simp [hne, idsWithKey]
        rw [ih, hids, alookup_alistSet_ne _ _ _ _ hkK]

theorem groupByKey_lookup {κ : Type _} [DecidableEq κ]
    (keyOf : GraphOwnedResource → Option κ) (G : RenderGraph) (K : κ) :
    alookup (groupByKey keyOf G) K
      = (if idsWithKey keyOf G.owned_resources.enum K = [] then none
         else some (idsWithKey keyOf G.owned_resources.enum K)) := by
  unfold groupByKey
  rw [foldl_group_lookup]
  simp [alookup]

theorem nodupKeys_groupByKey {κ : Type _} [DecidableEq κ]
    (keyOf : GraphOwnedResource → Option κ) (G : RenderGraph) :
    NodupKeys (groupByKey keyOf G) := by
  unfold groupByKey
  generalize G.owned_resources.enum = l
  have : ∀ (m : List (κ × List Nat)), NodupKeys m →
      NodupKeys (l.foldl (fun m p =>
        match keyOf p.2 with
        | some k => alistSet m k ((alookup m k).getD [] ++ [p.1])
        | none => m) m) := by
    induction l with
    | nil => intro m hm; exact hm
    | cons p t ih =>
      intro m hm
      simp only [List.foldl_cons]
      cases hkey : keyOf p.2 with
      | none => exact ih m hm
      | some k => exact ih _ (nodupKeys_alistSet m k _ hm)
  exact this [] (by simp [NodupKeys])

theorem pool_allocAttachments_same (c : AttachmentCache)
    (k : AttachmentCacheKey) (n : Nat) :
    (c.allocAttachments k n).pool k = (allocLoop c.attachments (c.pool k) n).2 := by
  unfold AttachmentCache.allocAttachments AttachmentCache.pool
  simp [alookup_alistSet_self]

theorem pool_allocAttachments_ne (c : AttachmentCache)
    (k k' : AttachmentCacheKey) (n : Nat) (h : k ≠ k') :
    (c.allocAttachments k n).pool k' = c.pool k' := by
  unfold AttachmentCache.allocAttachments AttachmentCache.pool
  simp [alookup_alistSet_ne _ _ _ _ h]

theorem fold_alloc_pool_not_mem (K : AttachmentCacheKey) :
    ∀ (groups : List (AttachmentCacheKey × List Nat)) (c : AttachmentCache),
    K ∉ groups.map (·.1) →
    (groups.foldl (fun c p => c.allocAttachments p.1 p.2.length) c).pool K
      = c.pool K := by
  intro groups
  induction groups with
  | nil => intro c _; rfl
  | cons g t ih =>
    intro c h
    simp only [List.map_cons, List.mem_cons] at h
    push_neg at h
    simp only [List.foldl_cons]
    rw [ih _ h.2, pool_allocAttachments_ne _ _ _ _ (fun he => h.1 he.symm)]

theorem fold_alloc_pool_length (K : AttachmentCacheKey) :
    ∀ (groups : List (AttachmentCacheKey × List Nat)) (c : AttachmentCache),
    NodupKeys groups →
    ((groups.foldl (fun c p => c.allocAttachments p.1 p.2.length) c).pool K).length
      = (match alookup groups K with
         | none => (c.pool K).length
         | some vs => max (c.pool K).length vs.length) := by
  intro groups
  induction groups with
  | nil => intro c _; rfl
  | cons g t ih =>
    intro c hnd
    obtain ⟨k', vs'⟩ := g
    have hndt : NodupKeys t := (List.nodup_cons.mp hnd).2
    have hknot : k' ∉ t.map (·.1) := by
      have := (List.nodup_cons.mp hnd).1
      simpa using this
    by_cases hk : k' = K
    · rcases hk with rfl
      simp only [List.foldl_cons, alookup, if_pos rfl]
      rw [fold_alloc_pool_not_mem k' t _ hknot]
      rw [pool_allocAttachments_same]
      exact allocLoop_length _ _ _
    · simp only [List.foldl_cons, alookup, if_neg hk]
      rw [ih _ hndt]
      have hp := pool_allocAttachments_ne c k' K vs'.length hk
      cases alookup t K with
      | none => simp [hp]
      | some vs => simp [hp]

theorem fold_alloc_pool_noop (K : AttachmentCacheKey) :
    ∀ (groups : List (AttachmentCacheKey × List Nat)) (c : AttachmentCache),
    NodupKeys groups →
    (∀ vs, alookup groups K = some vs → vs.length ≤ (c.pool K).length) →
    (groups.foldl (fun c p => c.allocAttachments p.1 p.2.length) c).pool K
      = c.pool K := by
  intro groups
  induction groups with
  | nil => intro c _ _; rfl
  | cons g t ih =>
    intro c hnd hle
    obtain ⟨k', vs'⟩ := g
    have hndt : NodupKeys t := (List.nodup_cons.mp hnd).2
    have hknot : k' ∉ t.map (·.1) := by
      have := (List.nodup_cons.mp hnd).1
      simpa using this
    by_cases hk : k' = K
    · rcases hk with rfl
      simp only [List.foldl_cons]
      rw [fold_alloc_pool_not_mem k' t _ hknot]
      rw [pool_allocAttachments_same]
      rw [allocLoop_noop]
      have := hle vs' (by simp [alookup])
      omega
    · simp only [List.foldl_cons]
      have hp := pool_allocAttachments_ne c k' K vs'.length hk
      rw [ih _ hndt, hp]
      intro vs hvs
      rw [hp]
      exact hle vs (by simpa [alookup, hk] using hvs)

/-- The number of virtual attachments of the graph with cache key `K`. -/
def attachmentCount (G : RenderGraph) (K : AttachmentCacheKey) : Nat :=
  (G.owned_resources.filter (fun r => attachmentKeyOf r = some K)).length

theorem idsWithKey_length (keyOf : GraphOwnedResource → Option AttachmentCacheKey)
    (K : AttachmentCacheKey) (G : RenderGraph) :
    (idsWithKey keyOf G.owned_resources.enum K).length
      = (G.owned_resources.filter (fun r => keyOf r = some K)).length := by
  unfold idsWithKey
  rw [List.length_map, List.enum]
  exact length_filter_enumFrom (fun r => keyOf r = some K) _ 0

/-- C4.  Attachment caching is idempotent and additive: (a) against a cache
whose pool for key `K` is empty, an execution declaring `N` virtual
attachments with key `K` leaves a pool of exactly `N` physical images for
`K`; (b) a later execution declaring at most as many `K`-attachments as the
pool already holds leaves the pool exactly unchanged (zero additional
images, old slots kept); (c) a pool never shrinks. -/
theorem c4_idempotent_attachment_caching (G G' : RenderGraph)
    (c : AttachmentCache) (K : AttachmentCacheKey) :
    (c.pool K = [] →
      ((graphAllocAttachments G c).1.pool K).length = attachmentCount G K)
    ∧ (attachmentCount G' K ≤ (c.pool K).length →
      (graphAllocAttachments G' c).1.pool K = c.pool K)
    ∧ ((c.pool K).length ≤ ((graphAllocAttachments G c).1.pool K).length) := by
  have hcount : ∀ (H : RenderGraph),
      ∀ vs, alookup (groupByKey attachmentKeyOf H) K = some vs →
        vs.length = attachmentCount H K := by
    intro H vs hvs
    rw [groupByKey_lookup] at hvs
    by_cases hids : idsWithKey attachmentKeyOf H.owned_resources.enum K = []
    · rw [if_pos hids] at hvs; cases hvs
    · rw [if_neg hids] at hvs
      cases hvs
      exact idsWithKey_length attachmentKeyOf K H
  have hcount0 : ∀ (H : RenderGraph),
      alookup (groupByKey attachmentKeyOf H) K = none →
        attachmentCount H K = 0 := by
    intro H h
    rw [groupByKey_lookup] at h
    by_cases hids : idsWithKey attachmentKeyOf H.owned_resources.enum K = []
    · unfold attachmentCount
      rw [← idsWithKey_length attachmentKeyOf K H, hids]
      rfl
    · rw [if_neg hids] at h; cases h
  refine ⟨?_, ?_, ?_⟩
  · intro hpool
    unfold graphAllocAttachments
    have := fold_alloc_pool_length K (groupByKey attachmentKeyOf G) c
      (nodupKeys_groupByKey _ _)
    simp only at this ⊢
    rw [this]
    cases hvs : alookup (groupByKey attachmentKeyOf G) K with
    | none => simp [hpool, (hcount0 G hvs).symm]
    | some vs => simp [hpool, hcount G vs hvs]
  · intro hle
    unfold graphAllocAttachments
    simp only
    apply fold_alloc_pool_noop K _ c (nodupKeys_groupByKey _ _)
    intro vs hvs
    rw [hcount G' vs hvs]
    exact hle
  · unfold graphAllocAttachments
    have := fold_alloc_pool_length K (groupByKey attachmentKeyOf G) c
      (nodupKeys_groupByKey _ _)
    simp only at this ⊢
    rw [this]
    cases alookup (groupByKey attachmentKeyOf G) K with
    | none => simp
    | some vs => simp [Nat.le_max_left]

/-- Two no-dependency passes each declaring one 512×512 RGBA8 attachment. -/
def twoAttGraph : RenderGraph :=
  { passes := [], owned_resources :=
      [ GraphOwnedResource.Attachment "x" 512 512 TextureFormat.RGBA8 2
          LoadOp.Clear StoreOp.Store,
        GraphOwnedResource.Attachment "y" 512 512 TextureFormat.RGBA8 2
          LoadOp.Clear StoreOp.Store ],
    resource_to_owning_pass := [], imported_resources := [] }

/-- A later frame's graph declaring only one such attachment. -/
def oneAttGraph : RenderGraph :=
  { passes := [], owned_resources :=
      [ GraphOwnedResource.Attachment "z" 512 512 TextureFormat.RGBA8 2
          LoadOp.Clear StoreOp.Store ],
    resource_to_owning_pass := [], imported_resources := [] }

/-- The shared cache key of those attachments. -/
def exAttKey : AttachmentCacheKey :=
  { width := 512, height := 512, format := TextureFormat.RGBA8, usage := 2 }

/-- The cache state after running `twoAttGraph` against an empty cache. -/
def attCacheAfter : AttachmentCache :=
  (graphAllocAttachments twoAttGraph { attachments := 0, cache := [] }).1

/-- Witness for C4: the first execution creates a pool of 2 physical images
for the key, a later execution demanding 1 leaves the pool untouched, and
pools only grow. -/
theorem c4_witness :
    (({ attachments := 0, cache := [] } : AttachmentCache).pool exAttKey = []
      ∧ (attCacheAfter.pool exAttKey).length = attachmentCount twoAttGraph exAttKey)
    ∧ (attachmentCount oneAttGraph exAttKey ≤ (attCacheAfter.pool exAttKey).length
      ∧ (graphAllocAttachments oneAttGraph attCacheAfter).1.pool exAttKey
          = attCacheAfter.pool exAttKey)
    ∧ ((attCacheAfter.pool exAttKey).length
        ≤ ((graphAllocAttachments twoAttGraph attCacheAfter).1.pool exAttKey).length) :=
  ⟨⟨rfl,
    (c4_idempotent_attachment_caching twoAttGraph oneAttGraph
      { attachments := 0, cache := [] } exAttKey).1 rfl⟩,
   ⟨by decide,
    (c4_idempotent_attachment_caching twoAttGraph oneAttGraph
      attCacheAfter exAttKey).2.1 (by decide)⟩,
   (c4_idempotent_attachment_caching twoAttGraph oneAttGraph
      attCacheAfter exAttKey).2.2⟩

/-! ### List machinery for the dependency-resolution proofs (C1, C6, C8) -/

theorem foldl_hsInsert_filter {α : Type _} [DecidableEq α] (b : α) :
    ∀ (l acc : List α), b ∈ acc →
    l.foldl hsInsert acc = (l.filter (fun x => x ≠ b)).foldl hsInsert acc := by
  intro l
  induction l with
  | nil => intro acc _; rfl
  | cons x t ih =>
    intro acc hb
    by_cases hxb : x = b
    · subst hxb
      have hins : hsInsert acc x = acc := by unfold hsInsert; rw [if_pos hb]
      have hcond : (decide (x ≠ x)) = false := by simp
      simp only [List.foldl_cons, List.filter_cons, hins, hcond]
      rw [if_neg (by simp)]
      exact ih acc hb
    · have hcond : (decide (x ≠ b)) = true := by simpa using hxb
      simp only [List.foldl_cons, List.filter_cons, hcond]
      rw [if_pos trivial]
      simp only [List.foldl_cons]
      refine ih (hsInsert acc x) ?_
      rw [mem_hsInsert]
      exact Or.inl hb

theorem foldl_hsInsert_append_acc {α : Type _} [DecidableEq α] :
    ∀ (l acc₁ acc₂ : List α), (∀ x ∈ l, x ∉ acc₁) →
    l.foldl hsInsert (acc₁ ++ acc₂) = acc₁ ++ l.foldl hsInsert acc₂ := by
  intro l
  induction l with
  | nil => intro acc₁ acc₂ _; rfl
  | cons x t ih =>
    intro acc₁ acc₂ hnot
    have hx1 : x ∉ acc₁ := hnot x (List.mem_cons_self _ _)
    simp only [List.foldl_cons]
    have hstep : hsInsert (acc₁ ++ acc₂) x = acc₁ ++ hsInsert acc₂ x := by
      unfold hsInsert
      by_cases hx2 : x ∈ acc₂
      · rw [if_pos (List.mem_append.mpr (Or.inr hx2)), if_pos hx2]
      · rw [if_neg (by
          intro hmem
          rcases List.mem_append.mp hmem with h | h
          · exact hx1 h
          · exact hx2 h), if_neg hx2]
        simp
    rw [hstep]
    exact ih acc₁ (hsInsert acc₂ x) (fun y hy => hnot y (List.mem_cons_of_mem _ hy))

theorem dedupFirst_cons {α : Type _} [DecidableEq α] (a : α) (l : List α) :
    dedupFirst (a :: l) = a :: dedupFirst (l.filter (fun x => x ≠ a)) := by
  unfold dedupFirst
  simp only [List.foldl_cons]
  have h0 : hsInsert ([] : List α) a = [a] := by simp [hsInsert]
  rw [h0]
  rw [foldl_hsInsert_filter a l [a] (List.mem_singleton.mpr rfl)]
  have := foldl_hsInsert_append_acc (l.filter (fun x => x ≠ a)) [a] []
    (by
      intro x hx
      have := List.of_mem_filter hx
      simp only [decide_not, Bool.not_eq_true', decide_eq_false_iff_not] at this
      simp [this])
  simpa using this

theorem filter_split {α : Type _} (p : α → Bool) :
    ∀ (t r₁ r₂ : List α) (q : α), t.filter p = r₁ ++ q :: r₂ →
    ∃ t₁ t₂, t = t₁ ++ q :: t₂ ∧ t₁.filter p = r₁ ∧ t₂.filter p = r₂ := by
  intro t
  induction t with
  | nil =>
    intro r₁ r₂ q h
    rw [List.filter_nil] at h
    exact absurd h (by simp)
  | cons x ts ih =>
    intro r₁ r₂ q h
    rw [List.filter_cons] at h
    by_cases hp : p x
    · rw [if_pos hp] at h
      cases r₁ with
      | nil =>
        simp only [List.nil_append] at h
        obtain ⟨rfl, hts⟩ := List.cons.inj h
        exact ⟨[], ts, rfl, rfl, hts⟩
      | cons y r₁' =>
        simp only [List.cons_append] at h
        obtain ⟨rfl, hts⟩ := List.cons.inj h
        obtain ⟨t₁, t₂, rfl, hf1, hf2⟩ := ih r₁' r₂ q hts
        exact ⟨x :: t₁, t₂, rfl, by rw [List.filter_cons, if_pos hp, hf1], hf2⟩
    · rw [if_neg hp] at h
      obtain ⟨t₁, t₂, rfl, hf1, hf2⟩ := ih r₁ r₂ q h
      exact ⟨x :: t₁, t₂, rfl, by rw [List.filter_cons, if_neg hp, hf1], hf2⟩

theorem flatten_split {α : Type _} :
    ∀ (ls : List (List α)) (l₁ l₂ : List α) (q : α),
    ls.flatten = l₁ ++ q :: l₂ →
    ∃ lm, lm ∈ ls ∧ ∃ a b, lm = a ++ q :: b ∧ (∀ x ∈ b, x ∈ l₂) := by
  intro ls
  induction ls with
  | nil =>
    intro l₁ l₂ q h
    simp only [List.flatten_nil] at h
    exact absurd h (by simp)
  | cons x t ih =>
    intro l₁ l₂ q h
    simp only [List.flatten_cons] at h
    rcases List.append_eq_append_iff.mp h with ⟨a', ha1, ha2⟩ | ⟨c', hc1, hc2⟩
    · obtain ⟨lm, hlm, a, b, heq, hsub⟩ := ih a' l₂ q ha2
      exact ⟨lm, List.mem_cons_of_mem _ hlm, a, b, heq, hsub⟩
    · cases c' with
      | nil =>
        simp only [List.nil_append] at hc2
        obtain ⟨lm, hlm, a, b, heq, hsub⟩ := ih [] l₂ q hc2.symm
        exact ⟨lm, List.mem_cons_of_mem _ hlm, a, b, heq, hsub⟩
      | cons y b =>
        obtain ⟨rfl, hb⟩ := List.cons.inj hc2.symm
        refine ⟨x, List.mem_cons_self _ _, l₁, b, hc1, ?_⟩
        intro z hz
        rw [← hb]
        exact List.mem_append.mpr (Or.inl hz)

/-- Every element after an occurrence of `Q` in `L` is before `Q` in
`L.reverse`. -/
theorem after_to_before {α : Type _} (L : List α) (P Q : α)
    (h : ∀ l₁ l₂, L = l₁ ++ Q :: l₂ → P ∈ l₂) :
    ∀ r₁ r₂, L.reverse = r₁ ++ Q :: r₂ → P ∈ r₁ := by
  intro r₁ r₂ hr
  have hL : L = r₂.reverse ++ Q :: r₁.reverse := by
    have := congrArg List.reverse hr
    rw [List.reverse_reverse] at this
    rw [this]
    simp
  have := h _ _ hL
  simpa using this

/-- If `Q` occurs in `R` and every occurrence of `Q` is preceded by an
occurrence of `P`, then `dedupFirst R` places `P` strictly before `Q`. -/
theorem before_dedupFirst {α : Type _} [DecidableEq α] :
    ∀ (n : Nat) (R : List α), R.length ≤ n → ∀ (P Q : α), Q ∈ R →
    (∀ r₁ r₂, R = r₁ ++ Q :: r₂ → P ∈ r₁) →
    ∃ s₁ s₂, dedupFirst R = s₁ ++ P :: s₂ ∧ Q ∈ s₂ := by
  intro n
  induction n with
  | zero =>
    intro R hR P Q hQ _
    cases R with
    | nil => cases hQ
    | cons a t => simp at hR
  | succ n ih =>
    intro R hR P Q hQ hB
    cases R with
    | nil => cases hQ
    | cons a t =>
      by_cases haQ : a = Q
      · subst haQ
        exact absurd (hB [] t rfl) (by simp)
      · by_cases haP : a = P
        · subst haP
          refine ⟨[], dedupFirst (t.filter (fun x => x ≠ a)), dedupFirst_cons a t, ?_⟩
          rw [mem_dedupFirst, List.mem_filter]
          have hQt : Q ∈ t := by
            rcases List.mem_cons.mp hQ with h | h
            · exact absurd h.symm haQ
            · exact h
          refine ⟨hQt, by simpa using fun he => haQ he.symm⟩
        · have hQt : Q ∈ t := by
            rcases List.mem_cons.mp hQ with h | h
            · exact absurd h.symm haQ
            · exact h
          have hQf : Q ∈ t.filter (fun x => x ≠ a) := by
            rw [List.mem_filter]
            exact ⟨hQt, by simpa using fun he => haQ he.symm⟩
          have hlen : (t.filter (fun x => x ≠ a)).length ≤ n := by
            have h1 := List.length_filter_le (fun x => x ≠ a) t
            simp only [List.length_cons] at hR
            omega
          have hBf : ∀ r₁ r₂, t.filter (fun x => x ≠ a) = r₁ ++ Q :: r₂ →
              P ∈ r₁ := by
            intro r₁ r₂ hf
            obtain ⟨t₁, t₂, rfl, hf1, hf2⟩ := filter_split _ t r₁ r₂ Q hf
            have := hB (a :: t₁) t₂ rfl
            rcases List.mem_cons.mp this with h | h
            · exact absurd h.symm haP
            · rw [← hf1, List.mem_filter]
              exact ⟨h, by simpa using fun he => haP he.symm⟩
          obtain ⟨s₁, s₂, hs, hQs⟩ :=
            ih (t.filter (fun x => x ≠ a)) hlen P Q hQf hBf
          refine ⟨a :: s₁, s₂, ?_, hQs⟩
          rw [dedupFirst_cons, hs]
          rfl

/-! ### Resolver lemmas -/

theorem mapResolve_forward (f : Nat → Option (List Nat)) :
    ∀ (ds : List Nat) (ls : List (List Nat)), mapResolve f ds = some ls →
    ∀ d ∈ ds, ∃ l, f d = some l ∧ l ∈ ls := by
  intro ds
  induction ds with
  | nil => intro ls _ d hd; cases hd
  | cons d₀ t ih =>
    intro ls h d hd
    unfold mapResolve at h
    split at h
    · cases h
    · rename_i l₀ hl₀
      split at h
      · cases h
      · rename_i ls' hls'
        cases h
        rcases List.mem_cons.mp hd with rfl | hdt
        · exact ⟨l₀, hl₀, List.mem_cons_self _ _⟩
        · obtain ⟨l, hl, hmem⟩ := ih ls' hls' d hdt
          exact ⟨l, hl, List.mem_cons_of_mem _ hmem⟩

theorem mapResolve_backward (f : Nat → Option (List Nat)) :
    ∀ (ds : List Nat) (ls : List (List Nat)), mapResolve f ds = some ls →
    ∀ l ∈ ls, ∃ d ∈ ds, f d = some l := by
  intro ds
  induction ds with
  | nil =>
    intro ls h l hl
    cases h
    cases hl
  | cons d₀ t ih =>
    intro ls h l hl
    unfold mapResolve at h
    split at h
    · cases h
    · rename_i l₀ hl₀
      split at h
      · cases h
      · rename_i ls' hls'
        cases h
        rcases List.mem_cons.mp hl with rfl | hlt
        · exact ⟨d₀, List.mem_cons_self _ _, hl₀⟩
        · obtain ⟨d, hd, hfd⟩ := ih ls' hls' l hlt
          exact ⟨d, List.mem_cons_of_mem _ hd, hfd⟩

theorem mapResolve_mono {f g : Nat → Option (List Nat)}
    (hfg : ∀ d l, f d = some l → g d = some l) :
    ∀ (ds : List Nat) (ls : List (List Nat)), mapResolve f ds = some ls →
    mapResolve g ds = some ls := by
  intro ds
  induction ds with
  | nil => intro ls h; exact h
  | cons d₀ t ih =>
    intro ls h
    unfold mapResolve at h ⊢
    split at h
    · cases h
    · rename_i l₀ hl₀
      split at h
      · cases h
      · rename_i ls' hls'
        cases h
        rw [hfg d₀ l₀ hl₀, ih ls' hls']

theorem mapResolve_isSome {f : Nat → Option (List Nat)} :
    ∀ (ds : List Nat), (∀ d ∈ ds, (f d).isSome) → (mapResolve f ds).isSome := by
  intro ds
  induction ds with
  | nil => intro _; rfl
  | cons d₀ t ih =>
    intro h
    have hd₀ := h d₀ (List.mem_cons_self _ _)
    have ht := ih (fun d hd => h d (List.mem_cons_of_mem _ hd))
    unfold mapResolve
    cases hf : f d₀ with
    | none => rw [hf] at hd₀; cases hd₀
    | some l₀ =>
      cases hm : mapResolve f t with
      | none => rw [hm] at ht; cases ht
      | some ls => rfl

theorem lookupOwners_mem (G : RenderGraph) :
    ∀ (ids os : List Nat), lookupOwners G ids = some os →
    ∀ i ∈ ids, ∀ p, alookup G.resource_to_owning_pass i = some p → p ∈ os := by
  intro ids
  induction ids with
  | nil => intro os _ i hi; cases hi
  | cons i₀ t ih =>
    intro os h i hi p hp
    unfold lookupOwners at h
    split at h
    · cases h
    · rename_i p₀ hp₀
      cases hos : lookupOwners G t with
      | none => rw [hos] at h; cases h
      | some os' =>
        rw [hos] at h
        simp only [Option.map_some'] at h
        cases h
        rcases List.mem_cons.mp hi with rfl | hit
        · rw [hp₀] at hp
          cases hp
          exact List.mem_cons_self _ _
        · exact List.mem_cons_of_mem _ (ih os' hos i hit p hp)

theorem resolve_succ_elim (G : RenderGraph) (fuel p : Nat) (l : List Nat)
    (h : resolvePassDependencies G (fuel + 1) p = some l) :
    ∃ rp deps ls, G.passes.get? p = some rp ∧ passReadOwners G rp = some deps ∧
      mapResolve (resolvePassDependencies G fuel) deps = some ls ∧
      l = p :: ls.flatten := by
  unfold resolvePassDependencies at h
  split at h
  · cases h
  · rename_i rp hrp
    split at h
    · cases h
    · rename_i deps hdeps
      split at h
      · cases h
      · rename_i ls hls
        cases h
        exact ⟨rp, deps, ls, hrp, hdeps, hls, rfl⟩

theorem resolve_succ_intro (G : RenderGraph) (fuel p : Nat)
    (rp : RecordedPass) (deps : List Nat) (ls : List (List Nat))
    (hrp : G.passes.get? p = some rp) (hdeps : passReadOwners G rp = some deps)
    (hls : mapResolve (resolvePassDependencies G fuel) deps = some ls) :
    resolvePassDependencies G (fuel + 1) p = some (p :: ls.flatten) := by
  unfold resolvePassDependencies
  simp only [hrp, hdeps, hls]

theorem resolve_head (G : RenderGraph) (fuel p : Nat) (l : List Nat)
    (h : resolvePassDependencies G fuel p = some l) : ∃ t, l = p :: t := by
  cases fuel with
  | zero => cases h
  | succ n =>
    obtain ⟨rp, deps, ls, _, _, _, rfl⟩ := resolve_succ_elim G n p l h
    exact ⟨ls.flatten, rfl⟩

theorem resolve_mono (G : RenderGraph) :
    ∀ (fuel p : Nat) (l : List Nat),
    resolvePassDependencies G fuel p = some l →
    resolvePassDependencies G (fuel + 1) p = some l := by
  intro fuel
  induction fuel with
  | zero => intro p l h; cases h
  | succ n ih =>
    intro p l h
    obtain ⟨rp, deps, ls, hrp, hdeps, hls, rfl⟩ := resolve_succ_elim G n p l h
    exact resolve_succ_intro G (n + 1) p rp deps ls hrp hdeps
      (mapResolve_mono (fun d l' h' => ih d l' h') deps ls hls)

theorem resolve_mono_le (G : RenderGraph) (fuel fuel' p : Nat) (l : List Nat)
    (hle : fuel ≤ fuel') (h : resolvePassDependencies G fuel p = some l) :
    resolvePassDependencies G fuel' p = some l := by
  induction fuel' with
  | zero =>
    have : fuel = 0 := by omega
    subst this
    exact h
  | succ n ih =>
    by_cases he : fuel = n + 1
    · subst he; exact h
    · exact resolve_mono G n p l (ih (by omega))

theorem resolve_subrun (G : RenderGraph) :
    ∀ (fuel p : Nat) (l : List Nat),
    resolvePassDependencies G fuel p = some l →
    ∀ q ∈ l, ∃ f' l', f' ≤ fuel ∧ resolvePassDependencies G f' q = some l' ∧
      (∀ x ∈ l', x ∈ l) := by
  intro fuel
  induction fuel with
  | zero => intro p l h; cases h
  | succ n ih =>
    intro p l h q hq
    obtain ⟨rp, deps, ls, hrp, hdeps, hls, rfl⟩ := resolve_succ_elim G n p l h
    rcases List.mem_cons.mp hq with rfl | hqf
    · exact ⟨n + 1, q :: ls.flatten, le_refl _, h, fun x hx => hx⟩
    · obtain ⟨lm, hlm, hqlm⟩ := List.mem_flatten.mp hqf
      obtain ⟨d, _, hfd⟩ := mapResolve_backward _ deps ls hls lm hlm
      obtain ⟨f', l', hf'le, hres, hsub⟩ := ih d lm hfd q hqlm
      refine ⟨f', l', by omega, hres, ?_⟩
      intro x hx
      exact List.mem_cons_of_mem _ (List.mem_flatten.mpr ⟨lm, hlm, hsub x hx⟩)

theorem resolve_deps_mem (G : RenderGraph) (fuel p : Nat) (l : List Nat)
    (h : resolvePassDependencies G fuel p = some l)
    (q : Nat) (hq : q ∈ l) (rp : RecordedPass)
    (hrp : G.passes.get? q = some rp) (deps : List Nat)
    (hdeps : passReadOwners G rp = some deps) :
    ∀ d ∈ deps, d ∈ l := by
  intro d hd
  obtain ⟨f', l', _, hres, hsub⟩ := resolve_subrun G fuel p l h q hq
  cases f' with
  | zero => cases hres
  | succ m =>
    obtain ⟨rp', deps', ls', hrp', hdeps', hls', rfl⟩ :=
      resolve_succ_elim G m q l' hres
    rw [hrp] at hrp'
    cases hrp'
    rw [hdeps] at hdeps'
    cases hdeps'
    obtain ⟨ld, hfld, hldmem⟩ := mapResolve_forward _ deps ls' hls' d hd
    obtain ⟨t, rfl⟩ := resolve_head G m d ld hfld
    exact hsub d (List.mem_cons_of_mem _ (List.mem_flatten.mpr
      ⟨d :: t, hldmem, List.mem_cons_self _ _⟩))

theorem resolve_reaches (G : RenderGraph) :
    ∀ (fuel p : Nat) (l : List Nat),
    resolvePassDependencies G fuel p = some l →
    ∀ q ∈ l, Reaches G p q := by
  intro fuel
  induction fuel with
  | zero => intro p l h; cases h
  | succ n ih =>
    intro p l h q hq
    obtain ⟨rp, deps, ls, hrp, hdeps, hls, rfl⟩ := resolve_succ_elim G n p l h
    rcases List.mem_cons.mp hq with rfl | hqf
    · exact Relation.ReflTransGen.refl
    · obtain ⟨lm, hlm, hqlm⟩ := List.mem_flatten.mp hqf
      obtain ⟨d, hddeps, hfd⟩ := mapResolve_backward _ deps ls hls lm hlm
      have hstep : DependsOn G p d := ⟨rp, deps, hrp, hdeps, hddeps⟩
      exact Relation.ReflTransGen.head hstep (ih d lm hfd q hqlm)

theorem reaches_mem (G : RenderGraph) (fuel root : Nat) (l : List Nat)
    (h : resolvePassDependencies G fuel root = some l)
    (x : Nat) (hr : Reaches G root x) : x ∈ l := by
  induction hr with
  | refl =>
    obtain ⟨t, rfl⟩ := resolve_head G fuel root l h
    exact List.mem_cons_self _ _
  | tail hab hbc ih =>
    rename_i b c
    obtain ⟨rp, deps, hrp, hdeps, hcdeps⟩ := hbc
    exact resolve_deps_mem G fuel root l h b ih rp hrp deps hdeps c hcdeps

theorem resolve_dep_after (G : RenderGraph) :
    ∀ (fuel p : Nat) (l : List Nat),
    resolvePassDependencies G fuel p = some l →
    ∀ (l₁ l₂ : List Nat) (Q : Nat), l = l₁ ++ Q :: l₂ →
    ∀ (rp : RecordedPass) (deps : List Nat) (d : Nat),
    G.passes.get? Q = some rp → passReadOwners G rp = some deps → d ∈ deps →
    d ∈ l₂ := by
  intro fuel
  induction fuel with
  | zero => intro p l h; cases h
  | succ n ih =>
    intro p l h l₁ l₂ Q heq rp deps d hrp hdeps hd
    obtain ⟨rp', deps', ls, hrp', hdeps', hls, rfl⟩ := resolve_succ_elim G n p l h
    cases l₁ with
    | nil =>
      simp only [List.nil_append] at heq
      obtain ⟨rfl, rfl⟩ := List.cons.inj heq
      rw [hrp] at hrp'
      cases hrp'
      rw [hdeps] at hdeps'
      cases hdeps'
      obtain ⟨ld, hfld, hldmem⟩ := mapResolve_forward _ deps ls hls d hd
      obtain ⟨t, rfl⟩ := resolve_head G n d ld hfld
      exact List.mem_flatten.mpr ⟨d :: t, hldmem, List.mem_cons_self _ _⟩
    | cons a l₁' =>
      obtain ⟨rfl, hflat⟩ := List.cons.inj heq
      obtain ⟨lm, hlm, a', b, heq', hsub⟩ :=
        flatten_split ls l₁' l₂ Q hflat
      obtain ⟨d₀, _, hfd₀⟩ := mapResolve_backward _ deps' ls hls lm hlm
      have := ih d₀ lm hfd₀ a' b Q heq' rp deps d hrp hdeps hd
      exact hsub d this

/-- Unfold a successful `execute` into its parts. -/
theorem execute_ok_elim (G : RenderGraph) (fuel : Nat) (sel : List Nat)
    (tr : List Event) (h : execute G fuel = .ok (sel, tr)) :
    ∃ id root pushes,
      (outputResources G).head? = some id ∧
      alookup G.resource_to_owning_pass id = some root ∧
      resolvePassDependencies G fuel root = some pushes ∧
      sel = dedupFirst (root :: pushes).reverse := by
  unfold execute at h
  split at h
  · cases h
  · split at h
    · cases h
    · rename_i id hid
      split at h
      · cases h
      · rename_i root hroot
        split at h
        · cases h
        · rename_i pushes hpushes
          simp only [Except.ok.injEq, Prod.mk.injEq] at h
          exact ⟨id, root, pushes, hid, hroot, hpushes, h.1.symm⟩

/-! ### C1: topological soundness of the resolved order -/

/-- Pass `P` appears strictly before pass `Q` in the order `sel`. -/
def placesBefore (sel : List Nat) (P Q : Nat) : Prop :=
  ∃ s₁ s₂, sel = s₁ ++ P :: s₂ ∧ Q ∈ s₂

/-- C1.  If `execute` succeeds, pass `Q` is selected, and `Q` reads a
resource (attachment or buffer) whose owning pass is `P`, then the resolved
execution order places `P` strictly before `Q`. -/
theorem c1_topological_soundness (G : RenderGraph) (fuel : Nat)
    (sel : List Nat) (tr : List Event) (Q : Nat) (rpQ : RecordedPass)
    (rid P : Nat)
    (hexec : execute G fuel = .ok (sel, tr))
    (hQ : Q ∈ sel)
    (hrp : G.passes.get? Q = some rpQ)
    (hrid : rid ∈ rpQ.read_attachments.map (·.id) ++ rpQ.read_buffers.map (·.id))
    (howner : alookup G.resource_to_owning_pass rid = some P) :
    placesBefore sel P Q := by
  obtain ⟨id, root, pushes, hid, hroot, hpushes, hsel⟩ :=
    execute_ok_elim G fuel sel tr hexec
  have hQL : Q ∈ root :: pushes := by
    rw [hsel, mem_dedupFirst, List.mem_reverse] at hQ
    exact hQ
  have hQp : Q ∈ pushes := by
    obtain ⟨t0, ht0⟩ := resolve_head G fuel root pushes hpushes
    rcases List.mem_cons.mp hQL with rfl | h
    · rw [ht0]; exact List.mem_cons_self _ _
    · exact h
  obtain ⟨f', l', hle, hres, _⟩ := resolve_subrun G fuel root pushes hpushes Q hQp
  cases f' with
  | zero => cases hres
  | succ m =>
    obtain ⟨rp', deps, ls', hrp', hdeps, hls', heq'⟩ :=
      resolve_succ_elim G m Q l' hres
    rw [hrp] at hrp'
    cases hrp'
    have hPdeps : P ∈ deps := by
      unfold passReadOwners at hdeps
      cases hlo : lookupOwners G
          (rpQ.read_attachments.map (·.id) ++ rpQ.read_buffers.map (·.id)) with
      | none => rw [hlo] at hdeps; cases hdeps
      | some os =>
        rw [hlo] at hdeps
        simp only [Option.map_some'] at hdeps
        cases hdeps
        rw [mem_dedupFirst]
        exact lookupOwners_mem G _ os hlo rid hrid P howner
    have hafter : ∀ l₁ l₂, (root :: pushes) = l₁ ++ Q :: l₂ → P ∈ l₂ := by
      intro l₁ l₂ heq
      cases l₁ with
      | nil =>
        simp only [List.nil_append] at heq
        obtain ⟨hQroot, hl₂⟩ := List.cons.inj heq
        rw [← hl₂]
        rw [← hQroot] at hrp
        exact resolve_deps_mem G fuel root pushes hpushes root
          (by
            obtain ⟨t0, ht0⟩ := resolve_head G fuel root pushes hpushes
            rw [ht0]; exact List.mem_cons_self _ _)
          rpQ hrp deps hdeps P hPdeps
      | cons a l₁' =>
        obtain ⟨rfl, hflat⟩ := List.cons.inj heq
        exact resolve_dep_after G fuel root pushes hpushes l₁' l₂ Q hflat
          rpQ deps P hrp hdeps hPdeps
    have hbefore := after_to_before (root :: pushes) P Q hafter
    have hQrev : Q ∈ (root :: pushes).reverse := List.mem_reverse.mpr hQL
    obtain ⟨s₁, s₂, hdec, hQs⟩ := before_dedupFirst
      ((root :: pushes).reverse.length) ((root :: pushes).reverse)
      (le_refl _) P Q hQrev hbefore
    exact ⟨s₁, s₂, by rw [hsel, hdec], hQs⟩

/-- The selected order and trace of the example graph. -/
def exExec : List Nat × List Event :=
  (execute exampleGraph 9).toOption.getD ([], [])

/-- The recorded `fullscreen` pass of the example graph. -/
def exRpFullscreen : RecordedPass :=
  (exampleGraph.passes.get? 1).getD
    { name := "", pass := 0, cmds := [], read_attachments := [],
      write_attachments := [], read_buffers := [], write_buffers := [] }

/-- Witness for C1: in the example graph, pass 1 (`fullscreen`) reads the
depth attachment (resource 0) owned by pass 0 (`geometry`), and the
resolved order places 0 before 1. -/
theorem c1_witness :
    execute exampleGraph 9 = .ok (exExec.1, exExec.2)
    ∧ 1 ∈ exExec.1
    ∧ exampleGraph.passes.get? 1 = some exRpFullscreen
    ∧ 0 ∈ exRpFullscreen.read_attachments.map (·.id)
        ++ exRpFullscreen.read_buffers.map (·.id)
    ∧ alookup exampleGraph.resource_to_owning_pass 0 = some 0
    ∧ placesBefore exExec.1 0 1 :=
  ⟨rfl, by decide, rfl, by decide, rfl,
   c1_topological_soundness exampleGraph 9 exExec.1 exExec.2 1 exRpFullscreen
     0 0 rfl (by decide) rfl (by decide) rfl⟩

/-! ### C6: minimal dependency closure -/

/-- C6.  If `execute` succeeds, the selected passes are exactly those
reachable from the root pass (the owner of the unique `OutputRenderPass`
resource) along read-dependency edges; in particular a pass not reachable
from the root is never replayed. -/
theorem c6_minimal_dependency_closure (G : RenderGraph) (fuel : Nat)
    (sel : List Nat) (tr : List Event) (id root x : Nat)
    (hexec : execute G fuel = .ok (sel, tr))
    (hid : (outputResources G).head? = some id)
    (hroot : alookup G.resource_to_owning_pass id = some root) :
    x ∈ sel ↔ Reaches G root x := by
  obtain ⟨id', root', pushes, hid', hroot', hpushes, hsel⟩ :=
    execute_ok_elim G fuel sel tr hexec
  rw [hid] at hid'
  cases hid'
  rw [hroot] at hroot'
  cases hroot'
  constructor
  · intro hx
    rw [hsel, mem_dedupFirst, List.mem_reverse] at hx
    rcases List.mem_cons.mp hx with rfl | hxp
    · exact Relation.ReflTransGen.refl
    · exact resolve_reaches G fuel root pushes hpushes x hxp
  · intro hr
    have := reaches_mem G fuel root pushes hpushes x hr
    rw [hsel, mem_dedupFirst, List.mem_reverse]
    exact List.mem_cons_of_mem _ this

/-- Witness for C6: in the example graph (root pass 1), pass 0 is selected
and reachable, and the unreferenced pass 2 is characterized by the same
equivalence. -/
theorem c6_witness :
    (execute exampleGraph 9 = .ok (exExec.1, exExec.2)
     ∧ (outputResources exampleGraph).head? = some 3
     ∧ alookup exampleGraph.resource_to_owning_pass 3 = some 1)
    ∧ (0 ∈ exExec.1 ↔ Reaches exampleGraph 1 0)
    ∧ (2 ∈ exExec.1 ↔ Reaches exampleGraph 1 2) :=
  ⟨⟨rfl, rfl, rfl⟩,
   c6_minimal_dependency_closure exampleGraph 9 exExec.1 exExec.2 3 1 0
     rfl rfl rfl,
   c6_minimal_dependency_closure exampleGraph 9 exExec.1 exExec.2 3 1 2
     rfl rfl rfl⟩

/-! ### C8: termination on acyclic graphs, no cycle check -/

/-- Every pass's read owners resolve and point to in-range passes. -/
def wellFormedReads (G : RenderGraph) : Bool :=
  G.passes.all (fun rp =>
    match passReadOwners G rp with
    | none => false
    | some l => l.all (fun q => decide (q < G.passes.length)))

/-- `rank` is a topological rank: it strictly decreases along
read-dependency edges (a computable rendering of acyclicity of the
consumer-before-producer relation). -/
def rankDecreasing (G : RenderGraph) (rank : Nat → Nat) : Bool :=
  (List.range G.passes.length).all (fun u =>
    match G.passes.get? u with
    | none => true
    | some rp =>
      match passReadOwners G rp with
      | none => true
      | some l => l.all (fun v => decide (rank v < rank u)))

theorem wellFormedReads_spec (G : RenderGraph) (h : wellFormedReads G = true)
    (p : Nat) (rp : RecordedPass) (hrp : G.passes.get? p = some rp) :
    ∃ deps, passReadOwners G rp = some deps ∧
      ∀ q ∈ deps, q < G.passes.length := by
  have hmem : rp ∈ G.passes := List.get?_mem hrp
  have := List.all_eq_true.mp h rp hmem
  cases hpo : passReadOwners G rp with
  | none => simp only [hpo] at this; cases this
  | some l =>
    simp only [hpo] at this
    refine ⟨l, rfl, ?_⟩
    intro q hq
    have := List.all_eq_true.mp this q hq
    simpa using this

theorem rankDecreasing_spec (G : RenderGraph) (rank : Nat → Nat)
    (h : rankDecreasing G rank = true) :
    ∀ u v, DependsOn G u v → rank v < rank u := by
  rintro u v ⟨rp, deps, hrp, hdeps, hv⟩
  have hu : u < G.passes.length := by
    by_contra hnot
    rw [List.get?_eq_none.mpr (by omega)] at hrp
    cases hrp
  have := List.all_eq_true.mp h u (List.mem_range.mpr hu)
  simp only [hrp] at this
  simp only [hdeps] at this
  have := List.all_eq_true.mp this v hv
  simpa using this

/-- C8.  First half: if the read-dependency relation admits a strictly
decreasing rank (i.e. the consumer-before-producer relation is acyclic),
the recursive resolver terminates — fuel `rank root + 1` suffices.  Second
half: the resolver performs no cycle check of its own — on the concrete
cyclic graph `cyclicGraph` (pass 0 reads its own resource) it diverges, i.e.
fails for every amount of fuel. -/
theorem c8_acyclic_termination :
    (∀ (G : RenderGraph) (rank : Nat → Nat) (root : Nat),
      wellFormedReads G = true → rankDecreasing G rank = true →
      root < G.passes.length →
      (resolvePassDependencies G (rank root + 1) root).isSome)
    ∧ (∀ fuel, resolvePassDependencies cyclicGraph fuel 0 = none) := by
  constructor
  · intro G rank root hwf hrk hroot
    have main : ∀ n p, rank p ≤ n → p < G.passes.length →
        (resolvePassDependencies G (rank p + 1) p).isSome := by
      intro n
      induction n with
      | zero =>
        intro p hle hp
        obtain ⟨rp, hrp⟩ : ∃ rp, G.passes.get? p = some rp := by
          cases hg : G.passes.get? p with
          | none => exact absurd (List.get?_eq_none.mp hg) (by omega)
          | some rp => exact ⟨rp, rfl⟩
        obtain ⟨deps, hdeps, _⟩ := wellFormedReads_spec G hwf p rp hrp
        have hnone : ∀ d ∈ deps, ((resolvePassDependencies G (rank p)) d).isSome := by
          intro d hd
          have := rankDecreasing_spec G rank hrk p d ⟨rp, deps, hrp, hdeps, hd⟩
          omega
        obtain ⟨ls, hls⟩ := Option.isSome_iff_exists.mp
          (mapResolve_isSome deps hnone)
        rw [resolve_succ_intro G (rank p) p rp deps ls hrp hdeps hls]
        rfl
      | succ n ihn =>
        intro p hle hp
        obtain ⟨rp, hrp⟩ : ∃ rp, G.passes.get? p = some rp := by
          cases hg : G.passes.get? p with
          | none => exact absurd (List.get?_eq_none.mp hg) (by omega)
          | some rp => exact ⟨rp, rfl⟩
        obtain ⟨deps, hdeps, hbound⟩ := wellFormedReads_spec G hwf p rp hrp
        have hsome : ∀ d ∈ deps, ((resolvePassDependencies G (rank p)) d).isSome := by
          intro d hd
          have hdec := rankDecreasing_spec G rank hrk p d ⟨rp, deps, hrp, hdeps, hd⟩
          have := ihn d (by omega) (hbound d hd)
          obtain ⟨ld, hld⟩ := Option.isSome_iff_exists.mp this
          rw [resolve_mono_le G (rank d + 1) (rank p) d ld (by omega) hld]
          rfl
        obtain ⟨ls, hls⟩ := Option.isSome_iff_exists.mp
          (mapResolve_isSome deps hsome)
        rw [resolve_succ_intro G (rank p) p rp deps ls hrp hdeps hls]
        rfl
    exact main (rank root) root (le_refl _) hroot
  · intro fuel
    induction fuel with
    | zero => rfl
    | succ n ih =>
      have hps : cyclicGraph.passes.get? 0 = some cyclicRp := rfl
      have hpo : passReadOwners cyclicGraph cyclicRp = some [0] := rfl
      unfold resolvePassDependencies
      simp only [hps, hpo]
      unfold mapResolve
      rw [ih]

/-- Witness for C8 at a concrete input: the example graph is well-formed,
the identity function is a decreasing rank for it, and the resolver
terminates from its root pass 1 with fuel 2. -/
theorem c8_witness :
    wellFormedReads exampleGraph = true
    ∧ rankDecreasing exampleGraph (fun p => p) = true
    ∧ 1 < exampleGraph.passes.length
    ∧ (resolvePassDependencies exampleGraph 2 1).isSome :=
  ⟨by decide, by decide, by decide,
   c8_acyclic_termination.1 exampleGraph (fun p => p) 1
     (by decide) (by decide) (by decide)⟩

/-! ### C5: barrier emission before `begin render pass` -/

/-- The fixed destination stage profile of read barriers. -/
def shaderReadStages : Nat :=
  vk.VERTEX_SHADER ||| vk.FRAGMENT_SHADER ||| vk.COMPUTE_SHADER

/-- The read sets of a pass are genuine sets (no duplicates) and every read
handle carries the fixed shader-read destination profile — the state of
affairs produced by the builder, where read handles only arise via
`MutableGraphAttachmentHandle::read` / `MutableGraphBufferHandle::read`. -/
def readHandlesFixed (p : RecordedPass) : Prop :=
  p.read_attachments.Nodup ∧ p.read_buffers.Nodup
  ∧ (∀ a ∈ p.read_attachments, a.dst_stage = shaderReadStages
      ∧ a.dst_access = vk.SHADER_READ
      ∧ a.final_layout = ImageLayout.ShaderReadOnlyOptimal)
  ∧ (∀ b ∈ p.read_buffers, b.dst_stage = shaderReadStages
      ∧ b.dst_access = vk.SHADER_READ)

/-- The builder invariant: all recorded passes, and the pass under
construction, satisfy `readHandlesFixed`. -/
def builderInv (st : BuilderState) : Prop :=
  (∀ p ∈ st.graph.passes, readHandlesFixed p)
  ∧ (∀ c, st.cur = some c → readHandlesFixed c)

theorem nodup_hsInsert {α : Type _} [DecidableEq α] (s : List α) (a : α)
    (h : s.Nodup) : (hsInsert s a).Nodup := by
  unfold hsInsert
  by_cases hm : a ∈ s
  · rw [if_pos hm]; exact h
  · rw [if_neg hm]
    refine List.Nodup.append h (List.nodup_singleton a) ?_
    intro x hx hxa
    rw [List.mem_singleton] at hxa
    exact hm (hxa ▸ hx)

theorem processBinding1_readHandlesFixed (st : DescBindState)
    (b : BindingDescOp) (st' : DescBindState)
    (rb : GraphOwnedResourceDescriptorBinding)
    (h : processBinding1 st b = .ok (st', rb))
    (hfix : readHandlesFixed st.cur) : readHandlesFixed st'.cur := by
  cases b with
  | importedBuffer raw size =>
    simp only [processBinding1] at h
    cases h
    exact hfix
  | importedTexture img smp view =>
    simp only [processBinding1] at h
    cases h
    exact hfix
  | buffer v =>
    simp only [processBinding1] at h
    split at h
    · cases h
    · rename_i m hm
      cases h
      obtain ⟨hna, hnb, hfa, hfb⟩ := hfix
      refine ⟨hna, nodup_hsInsert _ _ hnb, hfa, ?_⟩
      intro b' hb
      rw [mem_hsInsert] at hb
      rcases hb with hb | rfl
      · exact hfb b' hb
      · exact ⟨rfl, rfl⟩
  | mutableBuffer v =>
    simp only [processBinding1] at h
    split at h
    · cases h
    · cases h
      exact hfix
  | attachment v =>
    simp only [processBinding1] at h
    split at h
    · cases h
    · rename_i m hm
      cases h
      obtain ⟨hna, hnb, hfa, hfb⟩ := hfix
      refine ⟨nodup_hsInsert _ _ hna, hnb, ?_, hfb⟩
      intro a ha
      rw [mem_hsInsert] at ha
      rcases ha with ha | rfl
      · exact hfa a ha
      · exact ⟨rfl, rfl, rfl⟩
  | mutableAttachment v =>
    simp only [processBinding1] at h
    cases h

theorem processBindings_readHandlesFixed :
    ∀ (bs : List (Nat × BindingDescOp)) (st : DescBindState)
      (st' : DescBindState)
      (resolved : List (Nat × GraphOwnedResourceDescriptorBinding)),
    processBindings st bs = .ok (st', resolved) →
    readHandlesFixed st.cur → readHandlesFixed st'.cur := by
  intro bs
  induction bs with
  | nil =>
    intro st st' resolved h hfix
    simp only [processBindings] at h
    cases h
    exact hfix
  | cons hd tl ih =>
    intro st st' resolved h hfix
    obtain ⟨i, b⟩ := hd
    simp only [processBindings] at h
    split at h
    · cases h
    · rename_i st₁ rb hpb
      split at h
      · cases h
      · rename_i st₂ rest hps
        cases h
        exact ih st₁ st' rest hps
          (processBinding1_readHandlesFixed st b st₁ rb hpb hfix)

theorem processBinding1_passes (st : DescBindState) (b : BindingDescOp)
    (st' : DescBindState) (rb : GraphOwnedResourceDescriptorBinding)
    (h : processBinding1 st b = .ok (st', rb)) :
    st'.graph.passes = st.graph.passes := by
  cases b with
  | importedBuffer raw size =>
    simp only [processBinding1] at h
    cases h
    unfold importResource
    split <;> rfl
  | importedTexture img smp view =>
    simp only [processBinding1] at h
    cases h
    unfold importResource
    split <;> rfl
  | buffer v =>
    simp only [processBinding1] at h
    split at h
    · cases h
    · cases h; rfl
  | mutableBuffer v =>
    simp only [processBinding1] at h
    split at h
    · cases h
    · cases h; rfl
  | attachment v =>
    simp only [processBinding1] at h
    split at h
    · cases h
    · cases h; rfl
  | mutableAttachment v =>
    simp only [processBinding1] at h
    cases h

theorem processBindings_passes :
    ∀ (bs : List (Nat × BindingDescOp)) (st st' : DescBindState)
      (resolved : List (Nat × GraphOwnedResourceDescriptorBinding)),
    processBindings st bs = .ok (st', resolved) →
    st'.graph.passes = st.graph.passes := by
  intro bs
  induction bs with
  | nil =>
    intro st st' resolved h
    simp only [processBindings] at h
    cases h
    rfl
  | cons hd tl ih =>
    intro st st' resolved h
    obtain ⟨i, b⟩ := hd
    simp only [processBindings] at h
    split at h
    · cases h
    · rename_i st₁ rb hpb
      split at h
      · cases h
      · rename_i st₂ rest hps
        cases h
        rw [ih st₁ st' rest hps, processBinding1_passes st b st₁ rb hpb]

theorem rpProcessColors_writes :
    ∀ (colors : List Nat) (attEnv writes : List MutableGraphAttachmentHandle)
      (attEnv' writes' hs : List MutableGraphAttachmentHandle),
    rpProcessColors attEnv writes colors = .ok (attEnv', writes', hs) →
    ∀ h ∈ hs, h.layout = ImageLayout.ColorAttachmentOptimal := by
  intro colors
  induction colors with
  | nil =>
    intro attEnv writes attEnv' writes' hs h
    simp only [rpProcessColors] at h
    cases h
    intro x hx
    cases hx
  | cons v vs ih =>
    intro attEnv writes attEnv' writes' hs h
    simp only [rpProcessColors] at h
    split at h
    · cases h
    · rename_i a ha
      split at h
      · cases h
      · rename_i env'' w'' hs'' heq
        cases h
        intro x hx
        rcases List.mem_cons.mp hx with rfl | hxt
        · rfl
        · exact ih _ _ _ _ hs'' heq x hxt

theorem interpOp_inv (st st' : BuilderState) (op : BuildOp)
    (h : interpOp st op = .ok st') (hinv : builderInv st) : builderInv st' := by
  obtain ⟨hpasses, hcur⟩ := hinv
  cases op with
  | addPass name =>
    simp only [interpOp, stepAddPass] at h
    cases h
    constructor
    · intro p hp
      cases hc : st.cur with
      | none =>
        simp only [hc] at hp
        exact hpasses p hp
      | some c =>
        simp only [hc] at hp
        rcases List.mem_append.mp hp with hp | hp
        · exact hpasses p hp
        · rw [List.mem_singleton] at hp
          exact hp ▸ hcur c hc
    · intro c hc
      cases hc
      exact ⟨List.nodup_nil, List.nodup_nil, by simp, by simp⟩
  | addAttachment d =>
    simp only [interpOp, stepAddAttachment] at h
    split at h
    · cases h
    · cases h
      exact ⟨hpasses, hcur⟩
  | addBuffer d =>
    simp only [interpOp, stepAddBuffer] at h
    split at h
    · cases h
    · cases h
      exact ⟨hpasses, hcur⟩
  | addRenderPass name colors depth =>
    simp only [interpOp, stepAddRenderPass] at h
    split at h
    · cases h
    · rename_i cur hc
      split at h
      · cases h
      · rename_i attEnv writes colorHandles heq
        have hfix := hcur cur hc
        obtain ⟨hna, hnb, hfa, hfb⟩ := hfix
        split at h
        · cases h
          refine ⟨hpasses, ?_⟩
          intro c hc'
          cases hc'
          exact ⟨hna, hnb, hfa, hfb⟩
        · split at h
          · cases h
          · cases h
            refine ⟨hpasses, ?_⟩
            intro c hc'
            cases hc'
            exact ⟨hna, hnb, hfa, hfb⟩
  | addOutputRenderPass =>
    simp only [interpOp, stepAddOutputRenderPass] at h
    split at h
    · cases h
    · cases h
      exact ⟨hpasses, hcur⟩
  | addDescriptorSet name layout bs =>
    simp only [interpOp, stepAddDescriptorSet] at h
    split at h
    · cases h
    · rename_i cur hc
      split at h
      · cases h
      · rename_i dst resolved heq
        cases h
        constructor
        · intro p hp
          have hp' : p ∈ dst.graph.passes := hp
          rw [processBindings_passes bs _ dst resolved heq] at hp'
          exact hpasses p hp'
        · intro c hc'
          cases hc'
          exact processBindings_readHandlesFixed bs _ dst resolved heq (hcur cur hc)
  | cmdBeginRenderPass v cv =>
    simp only [interpOp] at h
    split at h
    · cases h
    · simp only [pushCmd] at h
      split at h
      · cases h
      · rename_i rp hrp cur hc
        cases h
        refine ⟨hpasses, ?_⟩
        intro c hc'
        cases hc'
        exact hcur cur hc
  | cmdEndRenderPass =>
    simp only [interpOp, pushCmd] at h
    split at h
    · cases h
    · rename_i cur hc
      cases h
      refine ⟨hpasses, ?_⟩
      intro c hc'
      cases hc'
      exact hcur cur hc
  | cmdDraw a b c d =>
    simp only [interpOp, pushCmd] at h
    split at h
    · cases h
    · rename_i cur hc
      cases h
      refine ⟨hpasses, ?_⟩
      intro c hc'
      cases hc'
      exact hcur cur hc

theorem interpOps_inv : ∀ (ops : List BuildOp) (st st' : BuilderState),
    interpOps st ops = .ok st' → builderInv st → builderInv st' := by
  intro ops
  induction ops with
  | nil =>
    intro st st' h hinv
    cases h
    exact hinv
  | cons op t ih =>
    intro st st' h hinv
    simp only [interpOps] at h
    split at h
    · cases h
    · rename_i st'' heq
      exact ih st'' st' h (interpOp_inv st st'' op heq hinv)

theorem buildGraph_readHandlesFixed (ops : List BuildOp) (G : RenderGraph)
    (h : buildGraph ops = .ok G) : ∀ p ∈ G.passes, readHandlesFixed p := by
  unfold buildGraph at h
  split at h
  · cases h
  · rename_i st hst
    have hinv := interpOps_inv ops initialBuilderState st hst
      ⟨(by intro p hp; cases hp), (by intro c hc; cases hc)⟩
    obtain ⟨hpasses, hcur⟩ := hinv
    split at h
    · cases h
      exact hpasses
    · rename_i cur hc
      cases h
      intro p hp
      rcases List.mem_append.mp hp with hp | hp
      · exact hpasses p hp
      · rw [List.mem_singleton] at hp
        exact hp ▸ hcur cur hc

/-- C5.  For a pass of a builder-produced graph: (1) the replay of each of
its `BeginRenderPass` commands is immediately preceded by exactly one image
barrier per read attachment and one buffer barrier per read buffer, with
source stage/access/layout taken from the read handle and the fixed
destination profile (vertex|fragment|compute shader stages, `SHADER_READ`,
`ShaderReadOnlyOptimal`); the read sets are duplicate-free; (2) no other
command emits barriers; (3) a pass with empty read sets emits no barriers at
all; (4) `read()` copies the writer's stage/access/layout into the source
half and fixes the destination half. -/
theorem c5_barriers_before_begin (ops : List BuildOp) (G : RenderGraph)
    (hbuild : buildGraph ops = .ok G) (p : RecordedPass) (hp : p ∈ G.passes)
    (pre post : List PassCmd) (rpid : Nat) (cv : List Nat)
    (hcmds : p.cmds = pre ++ PassCmd.BeginRenderPass rpid cv :: post) :
    (replayPass p
      = (pre.map (replayCmd p)).flatten
        ++ p.read_attachments.map (fun a =>
            Event.imageBarrier a.id a.src_stage shaderReadStages a.src_access
              vk.SHADER_READ a.initial_layout ImageLayout.ShaderReadOnlyOptimal)
        ++ p.read_buffers.map (fun b =>
            Event.bufferBarrier b.id b.src_stage shaderReadStages b.src_access
              vk.SHADER_READ)
        ++ Event.beginRenderPass rpid cv :: (post.map (replayCmd p)).flatten)
    ∧ p.read_attachments.Nodup ∧ p.read_buffers.Nodup
    ∧ (∀ c : PassCmd, (∀ rp cv', c ≠ PassCmd.BeginRenderPass rp cv') →
        ∀ e ∈ replayCmd p c, e.isBarrier = false)
    ∧ (p.read_attachments = [] → p.read_buffers = [] →
        ∀ e ∈ replayPass p, e.isBarrier = false)
    ∧ (∀ m : MutableGraphAttachmentHandle,
        (m.read).src_stage = m.stage ∧ (m.read).src_access = m.access
        ∧ (m.read).initial_layout = m.layout
        ∧ (m.read).dst_stage = shaderReadStages
        ∧ (m.read).dst_access = vk.SHADER_READ
        ∧ (m.read).final_layout = ImageLayout.ShaderReadOnlyOptimal) := by
  obtain ⟨hna, hnb, hfa, hfb⟩ := buildGraph_readHandlesFixed ops G hbuild p hp
  refine ⟨?_, hna, hnb, ?_, ?_, ?_⟩
  · unfold replayPass
    rw [hcmds]
    rw [List.map_append, List.map_cons, List.flatten_append, List.flatten_cons]
    have hatt : p.read_attachments.map attachmentBarrier
        = p.read_attachments.map (fun a =>
            Event.imageBarrier a.id a.src_stage shaderReadStages a.src_access
              vk.SHADER_READ a.initial_layout ImageLayout.ShaderReadOnlyOptimal) := by
      apply List.map_congr_left
      intro a ha
      obtain ⟨h1, h2, h3⟩ := hfa a ha
      unfold attachmentBarrier
      rw [h1, h2, h3]
    have hbuf : p.read_buffers.map readBufferBarrier
        = p.read_buffers.map (fun b =>
            Event.bufferBarrier b.id b.src_stage shaderReadStages b.src_access
              vk.SHADER_READ) := by
      apply List.map_congr_left
      intro b hb
      obtain ⟨h1, h2⟩ := hfb b hb
      unfold readBufferBarrier
      rw [h1, h2]
    simp only [replayCmd, hatt, hbuf]
    simp [List.append_assoc]
  · intro c hc e he
    cases c with
    | BeginRenderPass rp cv' => exact absurd rfl (hc rp cv')
    | EndRenderPass => rw [List.mem_singleton.mp he]; rfl
    | BindRasterPipeline i => rw [List.mem_singleton.mp he]; rfl
    | BindComputePipeline i => rw [List.mem_singleton.mp he]; rfl
    | BindDescriptor s d pl => rw [List.mem_singleton.mp he]; rfl
    | DrawMesh i => rw [List.mem_singleton.mp he]; rfl
    | Draw a b c' d => rw [List.mem_singleton.mp he]; rfl
  · intro hea heb e he
    unfold replayPass at he
    obtain ⟨es, hes, hees⟩ := List.mem_flatten.mp he
    obtain ⟨c, hc, rfl⟩ := List.mem_map.mp hes
    cases c with
    | BeginRenderPass rp cv' =>
      simp only [replayCmd, hea, heb, List.map_nil, List.nil_append] at hees
      rw [List.mem_singleton.mp hees]
      rfl
    | EndRenderPass => rw [List.mem_singleton.mp hees]; rfl
    | BindRasterPipeline i => rw [List.mem_singleton.mp hees]; rfl
    | BindComputePipeline i => rw [List.mem_singleton.mp hees]; rfl
    | BindDescriptor s d pl => rw [List.mem_singleton.mp hees]; rfl
    | DrawMesh i => rw [List.mem_singleton.mp hees]; rfl
    | Draw a b c' d => rw [List.mem_singleton.mp hees]; rfl
  · intro m
    exact ⟨rfl, rfl, rfl, rfl, rfl, rfl⟩

/-- Witness for C5 at the example graph's `fullscreen` pass: its single
`BeginRenderPass` command is preceded by exactly the barrier of its one read
attachment. -/
theorem c5_witness :
    buildGraph exampleOps = .ok exampleGraph
    ∧ exRpFullscreen ∈ exampleGraph.passes
    ∧ exRpFullscreen.cmds
        = [] ++ PassCmd.BeginRenderPass 3 [2]
            :: [PassCmd.Draw 3 1 0 0, PassCmd.EndRenderPass]
    ∧ (replayPass exRpFullscreen
      = ([].map (replayCmd exRpFullscreen)).flatten
        ++ exRpFullscreen.read_attachments.map (fun a =>
            Event.imageBarrier a.id a.src_stage shaderReadStages a.src_access
              vk.SHADER_READ a.initial_layout ImageLayout.ShaderReadOnlyOptimal)
        ++ exRpFullscreen.read_buffers.map (fun b =>
            Event.bufferBarrier b.id b.src_stage shaderReadStages b.src_access
              vk.SHADER_READ)
        ++ Event.beginRenderPass 3 [2]
            :: ([PassCmd.Draw 3 1 0 0, PassCmd.EndRenderPass].map
                (replayCmd exRpFullscreen)).flatten) :=
  ⟨rfl, by decide, by decide,
   (c5_barriers_before_begin exampleOps exampleGraph rfl exRpFullscreen
     (by decide) [] [PassCmd.Draw 3 1 0 0, PassCmd.EndRenderPass] 3 [2]
     (by decide)).1⟩

/-! ### C7: final image layouts in the render-pass cache key -/

/-- Invariant: every `RenderPass` resource stores color handles whose layout
is `ColorAttachmentOptimal` and a depth handle (when present) whose layout
is `DepthStencilAttachmentOptimal` — the write layouts stamped by
`PassBuilder::add_render_pass` before the handles are copied into the
resource. -/
def renderPassLayoutsOk (G : RenderGraph) : Prop :=
  ∀ r ∈ G.owned_resources, ∀ name colors depth,
    r = GraphOwnedResource.RenderPass name colors depth →
    (∀ h ∈ colors, h.layout = ImageLayout.ColorAttachmentOptimal)
    ∧ (∀ h, depth = some h → h.layout = ImageLayout.DepthStencilAttachmentOptimal)

theorem rpLayouts_append (G : RenderGraph) (pass : Nat)
    (res : GraphOwnedResource) (hinv : renderPassLayoutsOk G)
    (hres : ∀ name colors depth, res = GraphOwnedResource.RenderPass name colors depth →
      (∀ h ∈ colors, h.layout = ImageLayout.ColorAttachmentOptimal)
      ∧ (∀ h, depth = some h → h.layout = ImageLayout.DepthStencilAttachmentOptimal)) :
    renderPassLayoutsOk (createResource G pass res).1 := by
  intro r hr name colors depth hr'
  have hr2 : r ∈ G.owned_resources ++ [res] := hr
  rcases List.mem_append.mp hr2 with hmem | hmem
  · exact hinv r hmem name colors depth hr'
  · rw [List.mem_singleton] at hmem
    subst hmem
    exact hres name colors depth hr'

theorem processBinding1_owned (st : DescBindState) (b : BindingDescOp)
    (st' : DescBindState) (rb : GraphOwnedResourceDescriptorBinding)
    (h : processBinding1 st b = .ok (st', rb)) :
    st'.graph.owned_resources = st.graph.owned_resources := by
  cases b with
  | importedBuffer raw size =>
    simp only [processBinding1] at h
    cases h
    unfold importResource
    split <;> rfl
  | importedTexture img smp view =>
    simp only [processBinding1] at h
    cases h
    unfold importResource
    split <;> rfl
  | buffer v =>
    simp only [processBinding1] at h
    split at h
    · cases h
    · cases h; rfl
  | mutableBuffer v =>
    simp only [processBinding1] at h
    split at h
    · cases h
    · cases h; rfl
  | attachment v =>
    simp only [processBinding1] at h
    split at h
    · cases h
    · cases h; rfl
  | mutableAttachment v =>
    simp only [processBinding1] at h
    cases h

theorem processBindings_owned :
    ∀ (bs : List (Nat × BindingDescOp)) (st st' : DescBindState)
      (resolved : List (Nat × GraphOwnedResourceDescriptorBinding)),
    processBindings st bs = .ok (st', resolved) →
    st'.graph.owned_resources = st.graph.owned_resources := by
  intro bs
  induction bs with
  | nil =>
    intro st st' resolved h
    simp only [processBindings] at h
    cases h
    rfl
  | cons hd tl ih =>
    intro st st' resolved h
    obtain ⟨i, b⟩ := hd
    simp only [processBindings] at h
    split at h
    · cases h
    · rename_i st₁ rb hpb
      split at h
      · cases h
      · rename_i st₂ rest hps
        cases h
        rw [ih st₁ st' rest hps, processBinding1_owned st b st₁ rb hpb]

theorem stepAddPass_owned (st : BuilderState) (name : String) :
    (stepAddPass st name).graph.owned_resources = st.graph.owned_resources := by
  unfold stepAddPass
  cases st.cur <;> rfl

theorem interpOp_rpLayouts (st st' : BuilderState) (op : BuildOp)
    (h : interpOp st op = .ok st') (hinv : renderPassLayoutsOk st.graph) :
    renderPassLayoutsOk st'.graph := by
  cases op with
  | addPass name =>
    simp only [interpOp] at h
    cases h
    intro r hr
    rw [stepAddPass_owned] at hr
    exact hinv r hr
  | addAttachment d =>
    simp only [interpOp, stepAddAttachment] at h
    split at h
    · cases h
    · cases h
      exact rpLayouts_append _ _ _ hinv (fun name colors depth heq => nomatch heq)
  | addBuffer d =>
    simp only [interpOp, stepAddBuffer] at h
    split at h
    · cases h
    · cases h
      exact rpLayouts_append _ _ _ hinv (fun name colors depth heq => nomatch heq)
  | addRenderPass name colors depth =>
    simp only [interpOp, stepAddRenderPass] at h
    split at h
    · cases h
    · rename_i cur hc
      split at h
      · cases h
      · rename_i attEnv writes colorHandles heq
        split at h
        · cases h
          refine rpLayouts_append _ _ _ hinv ?_
          intro n c d heq'
          obtain ⟨-, hc', hd'⟩ := GraphOwnedResource.RenderPass.inj heq'
          subst hc'
          subst hd'
          exact ⟨rpProcessColors_writes colors _ _ _ _ _ heq,
            fun h hh => nomatch hh⟩
        · split at h
          · cases h
          · rename_i a ha
            cases h
            refine rpLayouts_append _ _ _ hinv ?_
            intro n c d heq'
            obtain ⟨-, hc', hd'⟩ := GraphOwnedResource.RenderPass.inj heq'
            subst hc'
            subst hd'
            refine ⟨rpProcessColors_writes colors _ _ _ _ _ heq, ?_⟩
            intro h hh
            cases hh
            rfl
  | addOutputRenderPass =>
    simp only [interpOp, stepAddOutputRenderPass] at h
    split at h
    · cases h
    · cases h
      exact rpLayouts_append _ _ _ hinv (fun name colors depth heq => nomatch heq)
  | addDescriptorSet name layout bs =>
    simp only [interpOp, stepAddDescriptorSet] at h
    split at h
    · cases h
    · rename_i cur hc
      split at h
      · cases h
      · rename_i dst resolved heq
        cases h
        have hown := processBindings_owned bs _ dst resolved heq
        refine rpLayouts_append _ _ _ ?_ (fun name colors depth heq' => nomatch heq')
        intro r hr
        rw [hown] at hr
        exact hinv r hr
  | cmdBeginRenderPass v cv =>
    simp only [interpOp] at h
    split at h
    · cases h
    · simp only [pushCmd] at h
      split at h
      · cases h
      · cases h
        exact hinv
  | cmdEndRenderPass =>
    simp only [interpOp, pushCmd] at h
    split at h
    · cases h
    · cases h
      exact hinv
  | cmdDraw a b c d =>
    simp only [interpOp, pushCmd] at h
    split at h
    · cases h
    · cases h
      exact hinv

theorem interpOps_rpLayouts : ∀ (ops : List BuildOp) (st st' : BuilderState),
    interpOps st ops = .ok st' → renderPassLayoutsOk st.graph →
    renderPassLayoutsOk st'.graph := by
  intro ops
  induction ops with
  | nil =>
    intro st st' h hinv
    cases h
    exact hinv
  | cons op t ih =>
    intro st st' h hinv
    simp only [interpOps] at h
    split at h
    · cases h
    · rename_i st'' heq
      exact ih st'' st' h (interpOp_rpLayouts st st'' op heq hinv)

theorem buildGraph_rpLayouts (ops : List BuildOp) (G : RenderGraph)
    (h : buildGraph ops = .ok G) : renderPassLayoutsOk G := by
  unfold buildGraph at h
  split at h
  · cases h
  · rename_i st hst
    have hinv := interpOps_rpLayouts ops initialBuilderState st hst
      (by intro r hr; cases hr)
    split at h
    · cases h
      exact hinv
    · cases h
      exact hinv

theorem attachmentDescOf_fields (G : RenderGraph)
    (h : MutableGraphAttachmentHandle) (d : AttachmentDescription)
    (hd : attachmentDescOf G h = some d) :
    d.initial_layout = ImageLayout.Undefined ∧ d.final_layout = h.layout := by
  unfold attachmentDescOf at hd
  split at hd
  · cases hd
    exact ⟨rfl, rfl⟩
  · cases hd

theorem mapAttachmentDescs_mem (G : RenderGraph) :
    ∀ (colors : List MutableGraphAttachmentHandle)
      (cds : List AttachmentDescription),
    mapAttachmentDescs G colors = some cds →
    ∀ d ∈ cds, ∃ h ∈ colors, attachmentDescOf G h = some d := by
  intro colors
  induction colors with
  | nil =>
    intro cds h d hd
    cases h
    cases hd
  | cons c t ih =>
    intro cds h d hd
    simp only [mapAttachmentDescs] at h
    split at h
    · cases h
    · rename_i d₀ hd₀
      cases hm : mapAttachmentDescs G t with
      | none => rw [hm] at h; cases h
      | some cds' =>
        rw [hm] at h
        simp only [Option.map_some'] at h
        cases h
        rcases List.mem_cons.mp hd with rfl | hdt
        · exact ⟨c, List.mem_cons_self _ _, hd₀⟩
        · obtain ⟨h', hh', hd'⟩ := ih cds' hm d hdt
          exact ⟨h', List.mem_cons_of_mem _ hh', hd'⟩

/-- C7 (amended).  For a builder-produced graph, the render-pass cache key
records, for every attachment of a `RenderPass` resource, initial layout
`Undefined` and as final layout the attachment's *write* layout —
`ColorAttachmentOptimal` for color attachments, `DepthStencilAttachmentOptimal`
for the depth attachment — irrespective of whether the attachment is read
later by another pass (see the counterexample for the claimed
`ShaderReadOnlyOptimal`). -/
theorem c7_render_pass_key_layouts (ops : List BuildOp) (G : RenderGraph)
    (hbuild : buildGraph ops = .ok G) (rid : Nat) (name : String)
    (colors : List MutableGraphAttachmentHandle)
    (depth : Option MutableGraphAttachmentHandle) (key : RenderPassCacheKey)
    (hres : G.owned_resources.get? rid
      = some (GraphOwnedResource.RenderPass name colors depth))
    (hkey : renderPassKeyOf G (GraphOwnedResource.RenderPass name colors depth)
      = some key) :
    (∀ d ∈ key.color_attachment_descs,
      d.initial_layout = ImageLayout.Undefined
      ∧ d.final_layout = ImageLayout.ColorAttachmentOptimal)
    ∧ (∀ d, key.depth_attachment_desc = some d →
      d.initial_layout = ImageLayout.Undefined
      ∧ d.final_layout = ImageLayout.DepthStencilAttachmentOptimal) := by
  have hinv := buildGraph_rpLayouts ops G hbuild
  obtain ⟨hcolors, hdepth⟩ := hinv _ (List.get?_mem hres) name colors depth rfl
  cases depth with
  | none =>
    simp only [renderPassKeyOf] at hkey
    split at hkey
    · cases hkey
    · rename_i cds hcds
      cases hkey
      constructor
      · intro d hd
        obtain ⟨h', hh', hd'⟩ := mapAttachmentDescs_mem G colors cds hcds d hd
        obtain ⟨h1, h2⟩ := attachmentDescOf_fields G h' d hd'
        exact ⟨h1, h2.trans (hcolors h' hh')⟩
      · intro d hd
        cases hd
  | some d₀ =>
    simp only [renderPassKeyOf] at hkey
    split at hkey
    · cases hkey
    · rename_i cds hcds
      split at hkey
      · cases hkey
      · rename_i dd hdd
        cases hkey
        constructor
        · intro d hd
          obtain ⟨h', hh', hd'⟩ := mapAttachmentDescs_mem G colors cds hcds d hd
          obtain ⟨h1, h2⟩ := attachmentDescOf_fields G h' d hd'
          exact ⟨h1, h2.trans (hcolors h' hh')⟩
        · intro d hd
          cases hd
          obtain ⟨h1, h2⟩ := attachmentDescOf_fields G d₀ dd hdd
          exact ⟨h1, h2.trans (hdepth d₀ rfl)⟩

/-- The depth handle stored in the example graph's `geo_rp` render pass. -/
def exDepthHandle : MutableGraphAttachmentHandle :=
  { id := 0, layout := ImageLayout.DepthStencilAttachmentOptimal,
    stage := vk.LATE_FRAGMENT_TESTS, access := vk.DEPTH_STENCIL_ATTACHMENT_WRITE }

/-- The render-pass cache key of the example graph's `geo_rp` render pass. -/
def exGeoKey : RenderPassCacheKey :=
  (renderPassKeyOf exampleGraph
    (GraphOwnedResource.RenderPass "geo_rp" [] (some exDepthHandle))).getD
    { color_attachment_descs := [], depth_attachment_desc := none }

/-- Witness for C7 (amended) at the example graph's `geo_rp` render pass. -/
theorem c7_witness :
    buildGraph exampleOps = .ok exampleGraph
    ∧ exampleGraph.owned_resources.get? 1
        = some (GraphOwnedResource.RenderPass "geo_rp" [] (some exDepthHandle))
    ∧ renderPassKeyOf exampleGraph
        (GraphOwnedResource.RenderPass "geo_rp" [] (some exDepthHandle))
        = some exGeoKey
    ∧ ((∀ d ∈ exGeoKey.color_attachment_descs,
        d.initial_layout = ImageLayout.Undefined
        ∧ d.final_layout = ImageLayout.ColorAttachmentOptimal)
      ∧ (∀ d, exGeoKey.depth_attachment_desc = some d →
        d.initial_layout = ImageLayout.Undefined
        ∧ d.final_layout = ImageLayout.DepthStencilAttachmentOptimal)) :=
  ⟨rfl, rfl, rfl,
   c7_render_pass_key_layouts exampleOps exampleGraph rfl 1 "geo_rp" []
     (some exDepthHandle) exGeoKey rfl rfl⟩

/-- A 512×512 RGBA8 color attachment descriptor. -/
def colorDesc : AttachmentDesc :=
  { name := "color", width := 512, height := 512, format := TextureFormat.RGBA8,
    load_op := LoadOp.Clear, store_op := StoreOp.Store, usage := 2 }

/-- A caller program with a *color* attachment that is read later: pass
`draw` renders into it through `color_rp`, pass `post` samples it and draws
into the output sentinel. -/
def colorOps : List BuildOp :=
  [ BuildOp.addPass "draw",
    BuildOp.addAttachment colorDesc,
    BuildOp.addRenderPass "color_rp" [0] none,
    BuildOp.cmdBeginRenderPass 0 [0],
    BuildOp.cmdDraw 3 1 0 0,
    BuildOp.cmdEndRenderPass,
    BuildOp.addPass "post",
    BuildOp.addDescriptorSet "ds" 7 [(0, BindingDescOp.attachment 0)],
    BuildOp.addOutputRenderPass,
    BuildOp.cmdBeginRenderPass 1 [0],
    BuildOp.cmdDraw 3 1 0 0,
    BuildOp.cmdEndRenderPass ]

/-- The graph built by `colorOps`. -/
def colorGraph : RenderGraph :=
  (buildGraph colorOps).toOption.getD initialBuilderState.graph

/-- The recorded `post` pass of `colorGraph`. -/
def colorRpPost : RecordedPass :=
  (colorGraph.passes.get? 1).getD
    { name := "", pass := 0, cmds := [], read_attachments := [],
      write_attachments := [], read_buffers := [], write_buffers := [] }

/-- Counterexample to C7 as stated, at two explicit concrete inputs, with
the claim's premise established in full each time.

Depth case (`exampleGraph`): resource 1 is a render-pass resource over the
depth attachment (resource 0, owned by pass 0), that attachment *is* later
read by another pass — pass 1 (`fullscreen`) has it in its read set, and
pass 1 ≠ pass 0 — yet the render-pass cache key the allocator builds
records final layout `DepthStencilAttachmentOptimal`, not the claimed
`ShaderReadOnlyOptimal`.

Color case (`colorGraph`): resource 1 is a render-pass resource over the
color attachment (resource 0, owned by pass 0), read later by pass 1
(`post`), yet the key records final layout `ColorAttachmentOptimal`, again
not `ShaderReadOnlyOptimal`. -/
theorem c7_counterexample :
    (buildGraph exampleOps = .ok exampleGraph
      ∧ exampleGraph.passes.get? 1 = some exRpFullscreen
      ∧ 0 ∈ exRpFullscreen.read_attachments.map (fun a => a.id)
      ∧ alookup exampleGraph.resource_to_owning_pass 0 = some 0
      ∧ (0 : Nat) ≠ 1
      ∧ ((exampleGraph.owned_resources.get? 1).bind
          (renderPassKeyOf exampleGraph)).map
          (fun k => k.depth_attachment_desc.map
            (fun d => (d.initial_layout, d.final_layout)))
        = some (some (ImageLayout.Undefined,
            ImageLayout.DepthStencilAttachmentOptimal))
      ∧ ImageLayout.DepthStencilAttachmentOptimal
          ≠ ImageLayout.ShaderReadOnlyOptimal)
    ∧ (buildGraph colorOps = .ok colorGraph
      ∧ colorGraph.passes.get? 1 = some colorRpPost
      ∧ 0 ∈ colorRpPost.read_attachments.map (fun a => a.id)
      ∧ alookup colorGraph.resource_to_owning_pass 0 = some 0
      ∧ (0 : Nat) ≠ 1
      ∧ ((colorGraph.owned_resources.get? 1).bind
          (renderPassKeyOf colorGraph)).map
          (fun k => k.color_attachment_descs.map
            (fun d => (d.initial_layout, d.final_layout)))
        = some [(ImageLayout.Undefined, ImageLayout.ColorAttachmentOptimal)]
      ∧ ImageLayout.ColorAttachmentOptimal
          ≠ ImageLayout.ShaderReadOnlyOptimal) :=
  ⟨⟨rfl, rfl, by decide, rfl, by decide, rfl, by decide⟩,
   ⟨rfl, rfl, by decide, rfl, by decide, rfl, by decide⟩⟩

end Goldfish

